import Mathlib

/-!
Verification model of `mht_unpack.py`, an MHTML (MIME HTML web-archive)
unpacker.  The script walks a multipart MIME message, indexes its parts by
Content-ID and Content-Location, picks a root part, and recursively renders
the root while resolving `cid:` and location references either into `data:`
URIs (inline strategy) or into sibling `blob=<digest><extension>` files
(directory strategy).

This file is a shallow embedding: each Python function of the source becomes
a pure executable Lean function over explicit data.  Machine-level details:

* byte strings are `List Nat` (each entry < 256 where produced by the model);
* Python's dynamically typed payload values (`None`, `bytes`, `str`) are the
  inductive `PyVal`;
* fallible code returns `Except Fail _`; the recursion of the renderer is
  fuel-indexed, `Fail.timeout` marking fuel exhaustion, so termination of the
  source recursion is the statement that some finite fuel avoids `timeout`;
* external collaborators (the `magic` sniffer, the optional minifiers, the
  bs4 HTML parser/serializer, `mimetypes.guess_extension`,
  `urllib.parse.urljoin`) live in an `Env` record of function parameters.
-/

set_option maxRecDepth 100000

abbrev Bytes := List Nat

/-- Truncation to 32 bits, the word size of SHA-256 arithmetic. -/
def w32 (n : Nat) : Nat := n % 4294967296

/-- Rotation right by `k` bits within a 32-bit word. -/
def rotr (k n : Nat) : Nat := (n >>> k) + w32 ((n % (2 ^ k)) <<< (32 - k))

def bsig0 (x : Nat) : Nat := rotr 2 x ^^^ rotr 13 x ^^^ rotr 22 x

def bsig1 (x : Nat) : Nat := rotr 6 x ^^^ rotr 11 x ^^^ rotr 25 x

def ssig0 (x : Nat) : Nat := rotr 7 x ^^^ rotr 18 x ^^^ (x >>> 3)

def ssig1 (x : Nat) : Nat := rotr 17 x ^^^ rotr 19 x ^^^ (x >>> 10)

def chF (e f g : Nat) : Nat := (e &&& f) ^^^ ((e ^^^ 4294967295) &&& g)

def majF (a b c : Nat) : Nat := (a &&& b) ^^^ (a &&& c) ^^^ (b &&& c)

/-- The SHA-256 round constants. -/
def sha256K : List Nat :=
  [1116352408, 1899447441, 3049323471, 3921009573,
   961987163, 1508970993, 2453635748, 2870763221,
   3624381080, 310598401, 607225278, 1426881987,
   1925078388, 2162078206, 2614888103, 3248222580,
   3835390401, 4022224774, 264347078, 604807628,
   770255983, 1249150122, 1555081692, 1996064986,
   2554220882, 2821834349, 2952996808, 3210313671,
   3336571891, 3584528711, 113926993, 338241895,
   666307205, 773529912, 1294757372, 1396182291,
   1695183700, 1986661051, 2177026350, 2456956037,
   2730485921, 2820302411, 3259730800, 3345764771,
   3516065817, 3600352804, 4094571909, 275423344,
   430227734, 506948616, 659060556, 883997877,
   958139571, 1322822218, 1537002063, 1747873779,
   1955562222, 2024104815, 2227730452, 2361852424,
   2428436474, 2756734187, 3204031479, 3329325298]

/-- The SHA-256 initial hash state. -/
def sha256H0 : List Nat :=
  [1779033703, 3144134277, 1013904242, 2773480762,
   1359893119, 2600822924, 528734635, 1541459225]

/-- Big-endian packing of bytes into 32-bit words. -/
def toWords : List Nat → List Nat
  | a :: b :: c :: d :: rest => (((a * 256 + b) * 256 + c) * 256 + d) :: toWords rest
  | _ => []

/-- One extension step of the SHA-256 message schedule. -/
def sched1 (acc : List Nat) : List Nat :=
  let n := acc.length
  let g : Nat → Nat := fun i => acc.getD (n - i) 0
  acc ++ [w32 (ssig1 (g 2) + g 7 + ssig0 (g 15) + g 16)]

/-- Extend the 16 block words to the 64 schedule words. -/
def schedule (w16 : List Nat) : List Nat :=
  (List.range 48).foldl (fun a _ => sched1 a) w16

/-- One SHA-256 compression round; the state is the 8-word list. -/
def sha256Round (st : List Nat) (kw : Nat) : List Nat :=
  match st with
  | [a, b, c, d, e, f, g, h] =>
    let t1 := w32 (h + bsig1 e + chF e f g + kw)
    let t2 := w32 (bsig0 a + majF a b c)
    [w32 (t1 + t2), a, b, c, w32 (d + t1), e, f, g]
  | other => other

/-- Compress one 64-byte block into the running hash state. -/
def compressBlock (h : List Nat) (block : List Nat) : List Nat :=
  let ws := schedule (toWords block)
  let kws := List.zipWith (fun k w => w32 (k + w)) sha256K ws
  let st := kws.foldl sha256Round h
  List.zipWith (fun x y => w32 (x + y)) h st

/-- SHA-256 padding: 0x80, zeros, then the 64-bit big-endian bit length. -/
def padMsg (msg : Bytes) : Bytes :=
  let L := msg.length
  let z := (119 - (L % 64)) % 64
  msg ++ [128] ++ List.replicate z 0 ++
    (List.range 8).reverse.map (fun i => ((8 * L) >>> (8 * i)) % 256)

/-- Split a byte list into 64-byte chunks (structurally, on a step counter
that the initial length bounds, so the kernel can evaluate it). -/
def chunks64Aux : Nat → Bytes → List Bytes
  | 0, _ => []
  | _ + 1, [] => []
  | n + 1, l => l.take 64 :: chunks64Aux n (l.drop 64)

def chunks64 (l : Bytes) : List Bytes := chunks64Aux l.length l

/-- Big-endian unpacking of a 32-bit word into 4 bytes. -/
def be4 (n : Nat) : Bytes := [(n >>> 24) % 256, (n >>> 16) % 256, (n >>> 8) % 256, n % 256]

/-- SHA-256 of a byte string, as 32 bytes.  Models `hashlib.sha256(b).digest()`. -/
def sha256 (msg : Bytes) : Bytes :=
  (((chunks64 (padMsg msg)).foldl compressBlock sha256H0).map be4).flatten

/-- The standard base64 alphabet, used by `base64.encodebytes`. -/
def b64StdAlphabet : List Char :=
  "ABCDEFGHIJKLMNOPQRSTUVWXYZabcdefghijklmnopqrstuvwxyz0123456789+/".data

/-- The URL-safe base64 alphabet, used by `base64.urlsafe_b64encode`. -/
def b64UrlAlphabet : List Char :=
  "ABCDEFGHIJKLMNOPQRSTUVWXYZabcdefghijklmnopqrstuvwxyz0123456789-_".data

def b64Char (alpha : List Char) (n : Nat) : Char := alpha.getD n 'A'

/-- Base64 encoding with `=` padding over a given alphabet, as a char list. -/
def b64Chars (alpha : List Char) : Bytes → List Char
  | [] => []
  | [a] =>
    [b64Char alpha (a >>> 2), b64Char alpha (w32 ((a % 4) <<< 4) % 64), '=', '=']
  | [a, b] =>
    [b64Char alpha (a >>> 2), b64Char alpha (((a % 4) <<< 4) + (b >>> 4)),
     b64Char alpha (((b % 16) <<< 2) % 64), '=']
  | a :: b :: c :: rest =>
    b64Char alpha (a >>> 2) :: b64Char alpha (((a % 4) <<< 4) + (b >>> 4)) ::
    b64Char alpha (((b % 16) <<< 2) + (c >>> 6)) :: b64Char alpha (c % 64) ::
    b64Chars alpha rest

/-- Models `base64.urlsafe_b64encode(digest).decode("ascii")` — note the `=`
padding is kept by the source. -/
def b64urlsafe (bs : Bytes) : String := String.mk (b64Chars b64UrlAlphabet bs)

/-- Models `base64.encodebytes(binary).decode().replace("\n", "")`: the line
breaks inserted every 76 chars by `encodebytes` are all removed again, so the
net result is plain padded standard base64 with no newlines. -/
def b64_encodebytes_nonl (bs : Bytes) : String := String.mk (b64Chars b64StdAlphabet bs)

/-- UTF-8 encoding of one unicode scalar value, as Python `str.encode('utf8')`
produces for each character. -/
def utf8Char (c : Char) : Bytes :=
  let n := c.toNat
  if n < 128 then [n]
  else if n < 2048 then [192 + (n >>> 6), 128 + n % 64]
  else if n < 65536 then [224 + (n >>> 12), 128 + (n >>> 6) % 64, 128 + n % 64]
  else [240 + (n >>> 18), 128 + (n >>> 12) % 64, 128 + (n >>> 6) % 64, 128 + n % 64]

/-- Models Python `s.encode('utf-8')`. -/
def utf8 (s : String) : Bytes := (s.data.map utf8Char).flatten

/-- Python `str.lower()` (as the source uses it on ASCII MIME types and
attribute values). -/
def pyLower (s : String) : String := String.mk (s.data.map Char.toLower)

/-- Python `str.strip()`: whitespace removed from both ends. -/
def pyStrip (s : String) : String :=
  String.mk (((s.data.dropWhile Char.isWhitespace).reverse.dropWhile Char.isWhitespace).reverse)

/-! ## Python-level values and failures -/

/-- A Python value as the source handles it: `None`, a `bytes` buffer, or a
`str`.  `Message.get_payload(decode=True)` returns `None` for multipart
containers and bytes otherwise; `str` covers the defensively handled textual
case in `Mapped.render`. -/
inductive PyVal
  | vnone
  | vbytes (b : Bytes)
  | vstr (s : String)
  deriving DecidableEq, Repr

/-- A failed run: a raised Python `TypeError`, or fuel exhaustion of the
fuel-indexed model of the recursion. -/
inductive Fail
  | typeError
  | timeout
  deriving DecidableEq, Repr

abbrev Run (α : Type) := Except Fail α

instance {ε α : Type} [DecidableEq ε] [DecidableEq α] : DecidableEq (Except ε α) := fun x y =>
  match x, y with
  | .ok a, .ok b => if h : a = b then .isTrue (by rw [h]) else .isFalse (by simp [h])
  | .error e, .error f => if h : e = f then .isTrue (by rw [h]) else .isFalse (by simp [h])
  | .ok _, .error _ => .isFalse (by simp)
  | .error _, .ok _ => .isFalse (by simp)

/-- Python `len` on a payload value: defined for `bytes` and `str`, a
`TypeError` on `None`. -/
def pyLen : PyVal → Run Nat
  | .vbytes b => .ok b.length
  | .vstr s => .ok s.length
  | .vnone => .error .typeError

/-! ## MIME-type helpers -/

/-- Models `suspect_mime_type`: empty, `text/plain` and `application/octet-stream`
usually indicate detection failed. -/
def suspect_mime_type (m : String) : Bool :=
  m = "" || m = "text/plain" || m = "application/octet-stream"

/-- The static `common_types` MIME-type → extension table. -/
def common_types : List (String × String) :=
  [("text/html", ".html"),
   ("text/plain", ".txt"),
   ("text/javascript", ".js"),
   ("application/javascript", ".js"),
   ("application/x-javascript", ".js"),
   ("text/css", ".css"),
   ("application/css", ".css"),
   ("application/octet-stream", ".data"),
   ("image/jpeg", ".jpg")]

/-- One element node of a parsed HTML document: tag name and attributes.
bs4 attribute assignment `tag[attr] = v` sets or overwrites one key. -/
structure Tag where
  name : String
  attrs : List (String × String)
  deriving DecidableEq, Repr

/-- A parsed document, as the renderer consumes it: the `doc.descendants`
sequence restricted to element nodes (non-`Tag` nodes are skipped by the
`isinstance` test in the source).  Attribute mutation does not change the
sequence of nodes, so the flattened list is a faithful view of the traversal. -/
abbrev Doc := List Tag

/-- The external collaborators of the core, injected as function parameters:
the optional `magic` MIME sniffer, the three optional transcoder families
(`rjsmin`, `csscompressor`, PIL — `png_compress` and `gif_compress` are the
same object as `jpeg_compress` in the source, hence one field), the bs4 HTML
parser and serializer, `mimetypes.guess_extension`, and
`urllib.parse.urljoin`.  A transcoder returns either a buffer or a
(buffer, mime) pair, matching the tuple test in `compress_data`. -/
structure Env where
  magicObj : Option (Bytes → String)
  jsCompress : Option (PyVal → PyVal ⊕ (PyVal × String))
  cssCompress : Option (PyVal → PyVal ⊕ (PyVal × String))
  jpegCompress : Option (PyVal → PyVal ⊕ (PyVal × String))
  parseHtml : PyVal → Option Doc
  encodeDoc : Doc → Bytes
  guessExtension : String → Option String
  urljoin : String → String → String

/-- Models `find_extension`: the static table, else `mimetypes.guess_extension(...)
or ""`.  The source lazily caches guesser results back into `common_types`;
since the guesser is a fixed function for the lifetime of a run, the cached
read-through is observationally the lookup modelled here. -/
def find_extension (env : Env) (mime_type : String) : String :=
  let m := pyLower mime_type
  match (common_types.find? (fun p => p.1 == m)).map (fun p => p.2) with
  | some ext => ext
  | none => (env.guessExtension m).getD ""

/-- The keys of the `minify` transcoder registry. -/
def minifyKeys : List String :=
  ["text/javascript", "application/javascript", "application/x-javascript",
   "text/css", "application/css", "image/jpeg", "image/png", "image/gif"]

/-- Models `minify.get(base, None)`: the registry maps the three JavaScript types to
`js_compress`, the two CSS types to `css_compress`, and the three image types
to `jpeg_compress` (`png_compress = gif_compress = jpeg_compress`).  A key
whose import failed holds `None`, which `compress_data` treats like a missing
key; that is the `Option` here. -/
def getCompressor (env : Env) (base : String) : Option (PyVal → PyVal ⊕ (PyVal × String)) :=
  if base = "text/javascript" ∨ base = "application/javascript" ∨
     base = "application/x-javascript" then env.jsCompress
  else if base = "text/css" ∨ base = "application/css" then env.cssCompress
  else if base = "image/jpeg" ∨ base = "image/png" ∨ base = "image/gif" then env.jpegCompress
  else none

/-- Models `mime_type.split(';')[0]`: the prefix before the first `;`. -/
def baseMimeType (m : String) : String := String.mk (m.data.takeWhile (fun c => c != ';'))

/-- Models `compress_data(data, mime_type)`: returns a smaller buffer or the same
one.  Transcoder exceptions are logged and re-raised by the source; the
transcoders are modelled as total collaborators, so that path is not
represented.  `len` of a `None` buffer raises `TypeError`. -/
def compress_data (env : Env) (data : PyVal) (mime_type : String) : Run (PyVal × String) :=
  if mime_type = "" then .ok (data, "")
  else
    match getCompressor env (baseMimeType mime_type) with
    | none => .ok (data, mime_type)
    | some comp =>
      let out := match comp data with
        | .inl d => (d, mime_type)
        | .inr dm => dm
      match pyLen out.1, pyLen data with
      | .ok ln, .ok ld => if ln < ld then .ok out else .ok (data, mime_type)
      | .error e, _ => .error e
      | _, .error e => .error e

/-! ## Parts, descriptors, the part index -/

/-- One node of the decoded MIME tree, with the headers the source reads.
`startParam` is the `start` parameter of the Content-Type header;
`multipart` is `part.is_multipart()`; a multipart part has `payload = vnone`
in real messages (`get_payload(decode=True)` returns `None` there). -/
structure MimePart where
  contentType : String
  payload : PyVal
  location : Option String
  contentBase : Option String
  cid : Option String
  startParam : Option String
  multipart : Bool
  deriving DecidableEq, Repr

/-- The declared-then-sniffed MIME type: the first two resolution steps of
`PartHelper.__init__` (start from the declared type; if suspect and `magic`
is available, sniff the payload). -/
def sniffedMime (env : Env) (part : MimePart) : String :=
  match env.magicObj, part.payload with
  | some sniff, .vbytes b =>
    if suspect_mime_type part.contentType then sniff b else part.contentType
  | _, _ => part.contentType

/-- The resolved MIME type of `PartHelper.__init__`: declared type, sniffed
when suspect and `magic` is available, the caller's recommendation when still
suspect and non-empty.  The final `if not mime: mime = ""` of the source only
converts a `None` sniffer result to `""`; the sniffer is modelled as
string-valued, so that step is the identity here. -/
def resolvedMime (env : Env) (part : MimePart) (recommended : String) : String :=
  let mime := sniffedMime env part
  if suspect_mime_type mime ∧ recommended ≠ "" then recommended else mime

/-- The descriptor built by `PartHelper.__init__`. -/
structure PartHelper where
  part : MimePart
  content_type : String
  payload : PyVal
  extension : String
  digest : String
  deriving DecidableEq, Repr

/-- Models `PartHelper.__init__(part, recommended_mime_type)`.  When the
decoded payload is not a byte buffer the constructor raises a `TypeError`:
for a `None` payload (multipart container) and for a `str` payload,
`hashlib.sha256(payload)` raises — and when `magic` is present and the
declared type is suspect, `magic_obj.id_buffer(payload)` already raises on
such payloads.  Both raise sites are the single `typeError` here. -/
def describe (env : Env) (part : MimePart) (recommended : String) : Run PartHelper :=
  match part.payload with
  | .vbytes b =>
    let mime := resolvedMime env part recommended
    .ok { part := part, content_type := mime, payload := part.payload,
          extension := find_extension env mime,
          digest := b64urlsafe (sha256 b) }
  | _ => .error .typeError

/-- Association-list write with Python-dict semantics: the newest binding for
a key shadows older ones (`dictGet` finds the newest first). -/
def dictSet (m : List (String × MimePart)) (k : String) (v : MimePart) : List (String × MimePart) :=
  (k, v) :: m

def dictGet (m : List (String × MimePart)) (k : String) : Option MimePart :=
  (m.find? (fun p => p.1 == k)).map (fun p => p.2)

/-- Models `cid.strip("<>")`. -/
def stripAngles (s : String) : String :=
  String.mk (((s.data.dropWhile (fun c => c == '<' || c == '>')).reverse.dropWhile
    (fun c => c == '<' || c == '>')).reverse)

/-- The index built by `Mapped.__init__`: `by_loc`, `by_id` and the `starts`
set.  Python's `set` is modelled as an insertion-ordered duplicate-free list
(its iteration order is unspecified in the source). -/
structure Mapped where
  by_loc : List (String × MimePart)
  by_id : List (String × MimePart)
  starts : List String
  parts : List MimePart
  deriving Repr

def addStart (l : List String) (s : String) : List String :=
  if s ∈ l then l else l ++ [s]

/-- One step of the `Mapped.__init__` walk over a part. -/
def mappedStep (env : Env) (M : Mapped) (part : MimePart) : Mapped :=
  let M := match part.startParam with
    | some s => { M with starts := addStart M.starts s }
    | none => M
  let base := part.contentBase.getD ""
  let M := match part.location with
    | some loc => { M with by_loc := dictSet M.by_loc (env.urljoin base loc) part }
    | none => M
  match part.cid with
  | some cid => { M with by_id := dictSet (dictSet M.by_id cid part) (stripAngles cid) part }
  | none => M

/-- Models `Mapped.__init__(mess)`: fold the flattening `mess.walk()`
traversal (given as a list) through `mappedStep`; the walk order list is kept
in `parts`. -/
def buildMapped (env : Env) (walk : List MimePart) : Mapped :=
  walk.foldl (mappedStep env) { by_loc := [], by_id := [], starts := [], parts := walk }

/-- The static reference-bearing tag → attribute table `Mapped.refs`. -/
def refs : List (String × List String) :=
  [("a", ["href"]),
   ("applet", ["codebase"]),
   ("area", ["href"]),
   ("audio", ["src"]),
   ("blockquote", ["cite"]),
   ("body", ["background"]),
   ("button", ["formaction"]),
   ("command", ["icon"]),
   ("del", ["cite"]),
   ("embed", ["src"]),
   ("form", ["action"]),
   ("frame", ["longdesc", "src"]),
   ("head", ["profile"]),
   ("html", ["manifest"]),
   ("iframe", ["longdesc", "src"]),
   ("img", ["longdesc", "src", "usemap"]),
   ("input", ["formaction", "src", "usemap"]),
   ("ins", ["cite"]),
   ("link", ["href"]),
   ("object", ["classid", "codebase", "data", "usemap"]),
   ("q", ["cite"]),
   ("script", ["src"]),
   ("source", ["src"]),
   ("track", ["src"]),
   ("video", ["poster", "src"])]

/-- Models `self.refs.get(tag.name, ())`. -/
def refsGet (name : String) : List String :=
  ((refs.find? (fun p => p.1 == name)).map (fun p => p.2)).getD []

/-- Models `tag.get(attr, "")`. -/
def tagGet (t : Tag) (a : String) : String :=
  (((t.attrs.find? (fun p => p.1 == a)).map (fun p => p.2)).getD "")

def setAttr (l : List (String × String)) (a v : String) : List (String × String) :=
  match l with
  | [] => [(a, v)]
  | (k, w) :: rest => if k = a then (a, v) :: rest else (k, w) :: setAttr rest a v

/-- Models `tag[attr] = v`. -/
def tagSet (t : Tag) (a v : String) : Tag := ⟨t.name, setAttr t.attrs a v⟩

/-! ## The scheme/path fragment of `urllib.parse.urlsplit`

The renderer only consumes `href_split.scheme` (compared against `"cid"`)
and `href_split.path` (the `by_id` lookup key); for the non-`cid` branch it
joins the original `href`, not the split.  Only that fragment is modelled:
a leading `letter(letter|digit|+|-|.)*:` prefix is a scheme (lowercased by
`urlsplit`), the path is what follows, after an optional `//netloc` and up
to the first `?` or `#`. -/

def isSchemeChar (c : Char) : Bool := c.isAlphanum || c = '+' || c = '-' || c = '.'

/-- Split a char list at the first `:`, when present. -/
def splitColon : List Char → Option (List Char × List Char)
  | [] => none
  | c :: rest =>
    if c = ':' then some ([], rest)
    else (splitColon rest).map (fun p => (c :: p.1, p.2))

/-- The (lowercased) scheme of a URI, `""` when there is none. -/
def urlScheme (href : String) : String :=
  match splitColon href.data with
  | some (pre, _) =>
    match pre with
    | [] => ""
    | c :: _ => if c.isAlpha ∧ pre.all isSchemeChar
                then String.mk (pre.map Char.toLower) else ""
  | none => ""

/-- The path component of a URI that has a scheme. -/
def urlPath (href : String) : String :=
  match splitColon href.data with
  | some (_, rest) =>
    let afterNet :=
      if rest.take 2 = ['/', '/'] then
        (rest.drop 2).dropWhile (fun c => ¬(c = '/' ∨ c = '?' ∨ c = '#'))
      else rest
    String.mk (afterNet.takeWhile (fun c => ¬(c = '?' ∨ c = '#')))
  | none => ""

/-! ## The renderer

`Mapped.render` with the two `render_data` mixin variants.  The recursion is
fuel-indexed: every mutual call steps the fuel down, and exhausted fuel is
`Fail.timeout`.  A run of the source terminates on an input exactly when some
fuel avoids `timeout` on it.

State: `seen` is the cycle-detection digest set (`InlineData` only extends
it); `fs` is the set of file paths existing in the working directory, which
only `DataDirectory.render_data` consults and extends (the placeholder
`open(path, "ab")` touch).  File contents are irrelevant to the claims and
are not modelled.

One deliberate deviation, documented here: when the parsed document contains
a `<base>` element, the source evaluates `up.urljoin(loc, base)` where
`base` is a bs4 `Tag` object, which `urllib.parse` rejects (`TypeError:
Cannot mix str and non-str arguments`) in the ordinary nonempty cases; the
model raises `typeError` uniformly for documents containing a `base` tag.
No claim concerns `<base>` handling. -/

inductive Strat
  | inlineData
  | dataDirectory
  deriving DecidableEq, Repr

mutual

/-- Models `Mapped.render(helper, seen)` (the `PartHelper` case; the raw-part
case is `renderTop` below). -/
def render (env : Env) (M : Mapped) (strat : Strat) :
    Nat → PartHelper → List String → List String → Run (PyVal × String × List String)
  | 0, _, _, _ => .error .timeout
  | fuel + 1, h, seen, fs =>
    let data := h.payload
    let content_type := h.content_type
    let part := h.part
    if content_type = "text/html" then
      match env.parseHtml data with
      | none => .error .typeError
      | some doc =>
        if (doc.filter (fun t => t.name == "base")).take 1 = [] then
          let loc := pyStrip (part.location.getD "")
          let base := env.urljoin loc (part.contentBase.getD "")
          match renderTags env M strat fuel doc base seen fs with
          | .error e => .error e
          | .ok (doc2, fs2) => .ok (.vbytes (env.encodeDoc doc2), "text/html;charset=utf8", fs2)
        else .error .typeError
    else
      match data with
      | .vstr s => .ok (.vbytes (utf8 s), content_type ++ ";charset=utf8", fs)
      | d => .ok (d, content_type, fs)

/-- The `for tag in doc.descendants` loop of `Mapped.render`. -/
def renderTags (env : Env) (M : Mapped) (strat : Strat) :
    Nat → Doc → String → List String → List String → Run (Doc × List String)
  | 0, _, _, _, _ => .error .timeout
  | _ + 1, [], _, _, fs => .ok ([], fs)
  | fuel + 1, tag :: rest, base, seen, fs =>
    match renderAttrs env M strat fuel (refsGet tag.name) tag base seen fs with
    | .error e => .error e
    | .ok (tag2, fs2) =>
      match renderTags env M strat fuel rest base seen fs2 with
      | .error e => .error e
      | .ok (rest2, fs3) => .ok (tag2 :: rest2, fs3)

/-- The `for attr in self.refs.get(tag.name, ())` loop of `Mapped.render`:
read the attribute, resolve it through `by_id` (a `cid:` URI) or `by_loc`
(joined against the base), and on a hit describe the referenced part and hand
it to `render_data`; a non-`None` result overwrites the attribute. -/
def renderAttrs (env : Env) (M : Mapped) (strat : Strat) :
    Nat → List String → Tag → String → List String → List String → Run (Tag × List String)
  | 0, _, _, _, _, _ => .error .timeout
  | _ + 1, [], tag, _, _, fs => .ok (tag, fs)
  | fuel + 1, attr :: attrRest, tag, base, seen, fs =>
    let href := pyStrip (tagGet tag attr)
    if href = "" then renderAttrs env M strat fuel attrRest tag base seen fs
    else
      let mime_type := pyLower (pyStrip (tagGet tag "type"))
      let mref := if urlScheme href = "cid"
                  then dictGet M.by_id (urlPath href)
                  else dictGet M.by_loc (env.urljoin base href)
      match mref with
      | none => renderAttrs env M strat fuel attrRest tag base seen fs
      | some mrefPart =>
        match describe env mrefPart mime_type with
        | .error e => .error e
        | .ok h2 =>
          match render_data env M strat fuel h2 seen fs with
          | .error e => .error e
          | .ok (res, fs2) =>
            let tag2 := match res with
              | some newHref => tagSet tag attr newHref
              | none => tag
            renderAttrs env M strat fuel attrRest tag2 base seen fs2

/-- Models `InlineData.render_data` (strategy `inlineData`) and
`DataDirectory.render_data` (strategy `dataDirectory`).

Inline: a digest already in `seen` yields `None` (cycle); otherwise render
recursively with `seen | {digest}`, transcode, and base64-embed as a
`data:` URI.

Directory: the path is `"blob=" + digest + extension`; if it already exists
return it immediately, otherwise touch the placeholder first, then render
recursively with the *unchanged* `seen`, transcode, and write (a non-bytes
final buffer makes `fh.write` raise). -/
def render_data (env : Env) (M : Mapped) (strat : Strat) :
    Nat → PartHelper → List String → List String → Run (Option String × List String)
  | 0, _, _, _ => .error .timeout
  | fuel + 1, h, seen, fs =>
    match strat with
    | .inlineData =>
      if h.digest ∈ seen then .ok (none, fs)
      else
        match render env M strat fuel h (h.digest :: seen) fs with
        | .error e => .error e
        | .ok (binary, content_type, fs2) =>
          match compress_data env binary content_type with
          | .error e => .error e
          | .ok (binary2, content_type2) =>
            match binary2 with
            | .vbytes b =>
              .ok (some ("data:" ++ content_type2 ++ ";base64," ++ b64_encodebytes_nonl b), fs2)
            | _ => .error .typeError
    | .dataDirectory =>
      let path := "blob=" ++ h.digest ++ h.extension
      if path ∈ fs then .ok (some path, fs)
      else
        match render env M strat fuel h seen (path :: fs) with
        | .error e => .error e
        | .ok (binary, content_type, fs2) =>
          match compress_data env binary content_type with
          | .error e => .error e
          | .ok (binary2, _) =>
            match binary2 with
            | .vbytes _ => .ok (some path, fs2)
            | _ => .error .typeError

end

/-- The dispatch at the top of `Mapped.render`: the source documents that a
raw message part may be passed, and then evaluates `PartHelper(helper)` —
but `PartHelper.__init__` requires the `recommended_mime_type` argument, so
that call raises `TypeError` for every raw part. -/
def renderTop (env : Env) (M : Mapped) (strat : Strat) (fuel : Nat) :
    MimePart ⊕ PartHelper → List String → List String → Run (PyVal × String × List String)
  | .inl _, _, _ => .error .typeError
  | .inr h, seen, fs => render env M strat fuel h seen fs

/-! ## Root selection and `convert_to_html` -/

/-- The `for start in mapper.starts` loop: the first candidate with a
`by_id` entry. -/
def findStart (starts : List String) (byId : List (String × MimePart)) : Option MimePart :=
  match starts with
  | [] => none
  | s :: rest =>
    match dictGet byId s with
    | some p => some p
    | none => findStart rest byId

/-- Root selection of `convert_to_html` (and of the `__main__` driver): a
`starts` hit, else the first non-multipart part in walk order. -/
def selectRoot (M : Mapped) (walk : List MimePart) : Option MimePart :=
  match findStart M.starts M.by_id with
  | some p => some p
  | none => walk.find? (fun p => ¬p.multipart)

/-- Models `convert_to_html`, file I/O aside: build the index, select the
root (`none` models the "Can't find root node" report, where the run writes
no output), then render the root inline with the `text/html` recommendation
over an empty seen set. -/
def convert_to_html (env : Env) (fuel : Nat) (walk : List MimePart) :
    Option (Run (PyVal × String × List String)) :=
  let mapper := buildMapped env walk
  match selectRoot mapper walk with
  | none => none
  | some root =>
    some (match describe env root "text/html" with
          | .error e => .error e
          | .ok h => render env mapper .inlineData fuel h [] [])



/-! ## Concrete fixtures, used by the witness theorems -/

/-- A fixture environment: no sniffer, no transcoders; the parser recognizes
the single-byte payload `[104]` as a document holding one `img` tag whose
`src` is `cid:me`; serialization is a constant byte. -/
def envT : Env :=
  { magicObj := none, jsCompress := none, cssCompress := none, jpegCompress := none,
    parseHtml := fun v => if v = .vbytes [104] then some [⟨"img", [("src", "cid:me")]⟩] else some [],
    encodeDoc := fun _ => [42],
    guessExtension := fun _ => none,
    urljoin := fun _ b => b }

/-- A self-referencing HTML part: its document (under `envT`) points back at
its own Content-ID. -/
def partH : MimePart :=
  { contentType := "text/html", payload := .vbytes [104], location := none,
    contentBase := none, cid := some "<me>", startParam := none, multipart := false }

def mapT : Mapped := buildMapped envT [partH]

def digestH : String := b64urlsafe (sha256 [104])

/-- The descriptor `describe` builds for `partH` with the `text/html`
recommendation. -/
def helperH : PartHelper :=
  { part := partH, content_type := "text/html", payload := .vbytes [104],
    extension := ".html", digest := digestH }



/-! ## Termination measures

The inline strategy's recursion is bounded by the digests of the message's
parts not yet in `seen`; the directory strategy's recursion is bounded by the
possible blob paths not yet touched in the working directory. -/

/-- The digest `describe` computes for a part (meaningful for byte payloads;
`describe` raises on the rest). -/
def digestOf (p : MimePart) : String :=
  match p.payload with
  | .vbytes b => b64urlsafe (sha256 b)
  | _ => ""

/-- Digests of all parts of the message. -/
def univDigests (M : Mapped) : List String := M.parts.map digestOf

/-- How many part digests are not yet in `seen`. -/
def newDigests (M : Mapped) (seen : List String) : Nat :=
  ((univDigests M).filter (fun d => decide (d ∉ seen))).length

/-- The blob path `DataDirectory.render_data` uses for a descriptor. -/
def pathD (h : PartHelper) : String := "blob=" ++ h.digest ++ h.extension

/-- The blob path arising from describing part `p` with recommendation
`rec`. -/
def pathFor (env : Env) (p : MimePart) (rec : String) : String :=
  "blob=" ++ digestOf p ++ find_extension env (resolvedMime env p rec)

/-- The `type` attribute hints occurring in the parsed document of a part. -/
def docHints (env : Env) (p : MimePart) : List String :=
  match env.parseHtml p.payload with
  | some doc => doc.map (fun t => pyLower (pyStrip (tagGet t "type")))
  | none => []

/-- Every recommendation a run started with hint `extra` can ever pass to
`describe`: the initial hint, the empty hint, and the `type` attributes of
any part's document. -/
def hintUniv (env : Env) (M : Mapped) (extra : String) : List String :=
  extra :: "" :: (M.parts.map (docHints env)).flatten

/-- Every blob path such a run can ever touch. -/
def pathUniv (env : Env) (M : Mapped) (extra : String) : List String :=
  (M.parts.map (fun p => (hintUniv env M extra).map (fun rec => pathFor env p rec))).flatten

/-- How many candidate blob paths do not exist yet in the directory. -/
def newPaths (env : Env) (M : Mapped) (extra : String) (fs : List String) : Nat :=
  ((pathUniv env M extra).filter (fun q => decide (q ∉ fs))).length

/-- A suspect-typed leaf part with an empty payload. -/
def partE : MimePart :=
  { contentType := "text/plain", payload := .vbytes [], location := none,
    contentBase := none, cid := some "<e>", startParam := none, multipart := false }

/-- The digest of the empty payload. -/
def digestE : String := b64urlsafe (sha256 [])

/-- The descriptor `describe` builds for `partE` with no recommendation:
its suspect declared type survives unchanged. -/
def helperE : PartHelper :=
  { part := partE, content_type := "text/plain", payload := .vbytes [],
    extension := ".txt", digest := digestE }

/-- The descriptor `describe` builds for `partE` when the referencing tag
declared `type="image/\npng"` (an attribute value can carry an inner
newline): the recommendation, newline included, becomes the content type. -/
def helperNL : PartHelper :=
  { part := partE, content_type := "image/\npng", payload := .vbytes [],
    extension := "", digest := digestE }

/-- A multipart container part: its decoded payload is `None`. -/
def partMulti : MimePart :=
  { contentType := "multipart/related", payload := .vnone, location := none,
    contentBase := none, cid := none, startParam := some "<root>", multipart := true }

/-- A non-multipart part sitting first in walk order. -/
def partFirst : MimePart :=
  { contentType := "image/jpeg", payload := .vbytes [1], location := none,
    contentBase := none, cid := none, startParam := none, multipart := false }

/-- A part declaring a `start` parameter naming its own Content-ID. -/
def partS : MimePart :=
  { contentType := "text/html", payload := .vbytes [2], location := none,
    contentBase := none, cid := some "<me>", startParam := some "me", multipart := false }

/-- An arbitrary descriptor with a textual content type and byte payload
(witness data for the non-HTML round trip). -/
def helperB : PartHelper :=
  { part := partE, content_type := "text/plain", payload := .vbytes [7],
    extension := ".txt", digest := "x" }

/-- The digest encoding as the specification words it, for the refinement
comparison of the digest claim: URL-safe base64 **without** padding
characters.  (The source keeps the `=` padding; this definition follows the
spec's words, not the source.) -/
def b64urlsafeNoPadSpec (bs : Bytes) : String :=
  String.mk ((b64Chars b64UrlAlphabet bs).filter (fun c => c ≠ '='))

/-- The descriptor `describe` builds for `partE` with the `image/png`
recommendation (suspect declared type, no sniffer, non-empty
recommendation). -/
def helperPng : PartHelper :=
  { part := partE, content_type := "image/png", payload := .vbytes [],
    extension := "", digest := digestE }

/-! ## Fuel monotonicity of the renderer -/

/-- Raising the fuel of a renderer run that did not exhaust its fuel does not
change the result (stated simultaneously for the four mutually recursive
functions). -/
theorem fuelMono (env : Env) (M : Mapped) (st : Strat) :
    ∀ f g : Nat, f ≤ g →
    (∀ h seen fs, render env M st f h seen fs ≠ .error .timeout →
      render env M st g h seen fs = render env M st f h seen fs) ∧
    (∀ doc base seen fs, renderTags env M st f doc base seen fs ≠ .error .timeout →
      renderTags env M st g doc base seen fs = renderTags env M st f doc base seen fs) ∧
    (∀ attrs tag base seen fs, renderAttrs env M st f attrs tag base seen fs ≠ .error .timeout →
      renderAttrs env M st g attrs tag base seen fs = renderAttrs env M st f attrs tag base seen fs) ∧
    (∀ h seen fs, render_data env M st f h seen fs ≠ .error .timeout →
      render_data env M st g h seen fs = render_data env M st f h seen fs) := by
  intro f
  induction f with
  | zero =>
    intro g _
    exact ⟨fun h seen fs hne => absurd rfl hne,
           fun doc base seen fs hne => absurd rfl hne,
           fun attrs tag base seen fs hne => absurd rfl hne,
           fun h seen fs hne => absurd rfl hne⟩
  | succ f ih =>
    intro g hg
    obtain ⟨g, rfl⟩ : ∃ gp, g = gp + 1 := ⟨g - 1, by omega⟩
    have hfg : f ≤ g := by omega
    obtain ⟨ihR, ihT, ihA, ihD⟩ := ih g hfg
    refine ⟨?_, ?_, ?_, ?_⟩
    · -- render
      intro h seen fs hne
      by_cases hct : h.content_type = "text/html"
      · cases hp : env.parseHtml h.payload with
        | none => simp [render, hct, hp]
        | some doc =>
          by_cases hb : (doc.filter (fun t => t.name == "base")).take 1 = []
          · cases hrt : renderTags env M st f doc
                (env.urljoin (pyStrip (h.part.location.getD "")) (h.part.contentBase.getD ""))
                seen fs with
            | error e =>
              cases e with
              | timeout => exact absurd (by simp [render, hct, hp, hb, hrt]) hne
              | typeError =>
                have h2 := ihT doc
                  (env.urljoin (pyStrip (h.part.location.getD "")) (h.part.contentBase.getD ""))
                  seen fs (by simp [hrt])
                simp [render, hct, hp, hb, hrt, h2]
            | ok pr =>
              have h2 := ihT doc
                (env.urljoin (pyStrip (h.part.location.getD "")) (h.part.contentBase.getD ""))
                seen fs (by simp [hrt])
              simp [render, hct, hp, hb, hrt, h2]
          · simp [render, hct, hp, hb]
      · simp [render, hct]
    · -- renderTags
      intro doc base seen fs hne
      cases doc with
      | nil => simp [renderTags]
      | cons tag rest =>
        cases hra : renderAttrs env M st f (refsGet tag.name) tag base seen fs with
        | error e =>
          cases e with
          | timeout => exact absurd (by simp [renderTags, hra]) hne
          | typeError =>
            have h2 := ihA (refsGet tag.name) tag base seen fs (by simp [hra])
            simp [renderTags, hra, h2]
        | ok pr =>
          obtain ⟨tag2, fs2⟩ := pr
          have h2 := ihA (refsGet tag.name) tag base seen fs (by simp [hra])
          cases hrt : renderTags env M st f rest base seen fs2 with
          | error e =>
            cases e with
            | timeout => exact absurd (by simp [renderTags, hra, hrt]) hne
            | typeError =>
              have h3 := ihT rest base seen fs2 (by simp [hrt])
              simp [renderTags, hra, h2, hrt, h3]
          | ok pr2 =>
            have h3 := ihT rest base seen fs2 (by simp [hrt])
            simp [renderTags, hra, h2, hrt, h3]
    · -- renderAttrs
      intro attrs tag base seen fs hne
      cases attrs with
      | nil => simp [renderAttrs]
      | cons attr attrRest =>
        by_cases hhref : pyStrip (tagGet tag attr) = ""
        · have hsub : renderAttrs env M st f attrRest tag base seen fs ≠ .error .timeout := by
            intro hx; exact hne (by simp [renderAttrs, hhref, hx])
          simp [renderAttrs, hhref, ihA attrRest tag base seen fs hsub]
        · set href := pyStrip (tagGet tag attr) with hhdef
          set mref := (if urlScheme href = "cid"
                       then dictGet M.by_id (urlPath href)
                       else dictGet M.by_loc (env.urljoin base href)) with hmdef
          cases hm : mref with
          | none =>
            have hsub : renderAttrs env M st f attrRest tag base seen fs ≠ .error .timeout := by
              intro hx; exact hne (by simp [renderAttrs, hhref, ← hmdef, hm, hx])
            simp [renderAttrs, hhref, ← hmdef, hm, ihA attrRest tag base seen fs hsub]
          | some mp =>
            cases hd : describe env mp (pyLower (pyStrip (tagGet tag "type"))) with
            | error e => simp [renderAttrs, hhref, ← hmdef, hm, hd]
            | ok h2 =>
              cases hrd : render_data env M st f h2 seen fs with
              | error e =>
                cases e with
                | timeout =>
                  exact absurd (by simp [renderAttrs, hhref, ← hmdef, hm, hd, hrd]) hne
                | typeError =>
                  have h3 := ihD h2 seen fs (by simp [hrd])
                  simp [renderAttrs, hhref, ← hmdef, hm, hd, hrd, h3]
              | ok pr =>
                obtain ⟨res, fs2⟩ := pr
                have h3 := ihD h2 seen fs (by simp [hrd])
                cases res with
                | none =>
                  have hsub : renderAttrs env M st f attrRest tag base seen fs2 ≠ .error .timeout := by
                    intro hx; exact hne (by simp [renderAttrs, hhref, ← hmdef, hm, hd, hrd, hx])
                  simp [renderAttrs, hhref, ← hmdef, hm, hd, hrd, h3,
                        ihA attrRest tag base seen fs2 hsub]
                | some newHref =>
                  have hsub : renderAttrs env M st f attrRest (tagSet tag attr newHref) base seen fs2 ≠
                      .error .timeout := by
                    intro hx; exact hne (by simp [renderAttrs, hhref, ← hmdef, hm, hd, hrd, hx])
                  simp [renderAttrs, hhref, ← hmdef, hm, hd, hrd, h3,
                        ihA attrRest (tagSet tag attr newHref) base seen fs2 hsub]
    · -- render_data
      intro h seen fs hne
      cases st with
      | inlineData =>
        by_cases hmem : h.digest ∈ seen
        · simp [render_data, hmem]
        · cases hrr : render env M .inlineData f h (h.digest :: seen) fs with
          | error e =>
            cases e with
            | timeout => exact absurd (by simp [render_data, hmem, hrr]) hne
            | typeError =>
              have h2 := ihR h (h.digest :: seen) fs (by simp [hrr])
              simp [render_data, hmem, hrr, h2]
          | ok tr =>
            have h2 := ihR h (h.digest :: seen) fs (by simp [hrr])
            simp [render_data, hmem, hrr, h2]
      | dataDirectory =>
        by_cases hmem : ("blob=" ++ h.digest ++ h.extension) ∈ fs
        · simp [render_data, hmem]
        · cases hrr : render env M .dataDirectory f h seen (("blob=" ++ h.digest ++ h.extension) :: fs) with
          | error e =>
            cases e with
            | timeout => exact absurd (by simp [render_data, hmem, hrr]) hne
            | typeError =>
              have h2 := ihR h seen (("blob=" ++ h.digest ++ h.extension) :: fs) (by simp [hrr])
              simp [render_data, hmem, hrr, h2]
          | ok tr =>
            have h2 := ihR h seen (("blob=" ++ h.digest ++ h.extension) :: fs) (by simp [hrr])
            simp [render_data, hmem, hrr, h2]

/-- Fuel-monotonicity corollary for `render`. -/
theorem renderMono (env : Env) (M : Mapped) (st : Strat) {f g : Nat} (hfg : f ≤ g)
    {h : PartHelper} {seen fs : List String} {r : Run (PyVal × String × List String)}
    (hr : render env M st f h seen fs = r) (hne : r ≠ .error .timeout) :
    render env M st g h seen fs = r := by
  rw [(fuelMono env M st f g hfg).1 h seen fs (by rw [hr]; exact hne)]; exact hr

/-- Fuel-monotonicity corollary for `renderTags`. -/
theorem renderTagsMono (env : Env) (M : Mapped) (st : Strat) {f g : Nat} (hfg : f ≤ g)
    {doc : Doc} {base : String} {seen fs : List String} {r : Run (Doc × List String)}
    (hr : renderTags env M st f doc base seen fs = r) (hne : r ≠ .error .timeout) :
    renderTags env M st g doc base seen fs = r := by
  rw [(fuelMono env M st f g hfg).2.1 doc base seen fs (by rw [hr]; exact hne)]; exact hr

/-- Fuel-monotonicity corollary for `renderAttrs`. -/
theorem renderAttrsMono (env : Env) (M : Mapped) (st : Strat) {f g : Nat} (hfg : f ≤ g)
    {attrs : List String} {tag : Tag} {base : String} {seen fs : List String}
    {r : Run (Tag × List String)}
    (hr : renderAttrs env M st f attrs tag base seen fs = r) (hne : r ≠ .error .timeout) :
    renderAttrs env M st g attrs tag base seen fs = r := by
  rw [(fuelMono env M st f g hfg).2.2.1 attrs tag base seen fs (by rw [hr]; exact hne)]; exact hr

/-- Fuel-monotonicity corollary for `render_data`. -/
theorem render_dataMono (env : Env) (M : Mapped) (st : Strat) {f g : Nat} (hfg : f ≤ g)
    {h : PartHelper} {seen fs : List String} {r : Run (Option String × List String)}
    (hr : render_data env M st f h seen fs = r) (hne : r ≠ .error .timeout) :
    render_data env M st g h seen fs = r := by
  rw [(fuelMono env M st f g hfg).2.2.2 h seen fs (by rw [hr]; exact hne)]; exact hr

/-! ## Generic filter-length lemmas for the measures -/

theorem filterLenMono {α : Type} (l : List α) (p q : α → Bool)
    (hpq : ∀ x, p x = true → q x = true) :
    (l.filter p).length ≤ (l.filter q).length := by
  induction l with
  | nil => simp
  | cons a l ih =>
    by_cases hp : p a = true
    · simp [List.filter_cons, hp, hpq a hp]; omega
    · rcases hq : q a with _ | _
      · simp [List.filter_cons, hp, hq]; omega
      · simp [List.filter_cons, hp, hq]; omega

theorem filterLenStrict {α : Type} (l : List α) (p q : α → Bool) (d : α)
    (hd : d ∈ l) (hpd : p d = false) (hqd : q d = true)
    (hpq : ∀ x, p x = true → q x = true) :
    (l.filter p).length < (l.filter q).length := by
  induction l with
  | nil => simp at hd
  | cons a l ih =>
    rcases List.mem_cons.mp hd with rfl | hmem
    · have hle := filterLenMono l p q hpq
      simp [List.filter_cons, hpd, hqd]; omega
    · have hlt := ih hmem
      by_cases hp : p a = true
      · simp [List.filter_cons, hp, hpq a hp]; omega
      · rcases hq : q a with _ | _
        · simp [List.filter_cons, hp, hq]; omega
        · simp [List.filter_cons, hp, hq]; omega

/-- Extending `seen` with a part digest not yet seen strictly shrinks the
inline measure. -/
theorem newDigests_insert (M : Mapped) (seen : List String) (d : String)
    (hdu : d ∈ univDigests M) (hds : d ∉ seen) :
    newDigests M (d :: seen) < newDigests M seen := by
  apply filterLenStrict _ _ _ d hdu
  · simp
  · simpa using hds
  · intro x hx
    simp only [decide_eq_true_eq] at hx ⊢
    intro hmem
    exact hx (List.mem_cons_of_mem _ hmem)

/-- A zero inline measure means every part digest is in `seen`. -/
theorem newDigests_zero (M : Mapped) (seen : List String)
    (h0 : newDigests M seen = 0) : ∀ d ∈ univDigests M, d ∈ seen := by
  intro d hd
  by_contra hds
  have : d ∈ (univDigests M).filter (fun d => decide (d ∉ seen)) :=
    List.mem_filter.mpr ⟨hd, by simpa using hds⟩
  have := List.length_pos.mpr (List.ne_nil_of_mem this)
  unfold newDigests at h0
  omega

/-- Touching a candidate blob path strictly shrinks the directory measure. -/
theorem newPaths_insert (env : Env) (M : Mapped) (extra : String) (fs : List String)
    (q : String) (hqu : q ∈ pathUniv env M extra) (hqf : q ∉ fs) :
    newPaths env M extra (q :: fs) < newPaths env M extra fs := by
  apply filterLenStrict _ _ _ q hqu
  · simp
  · simpa using hqf
  · intro x hx
    simp only [decide_eq_true_eq] at hx ⊢
    intro hmem
    exact hx (List.mem_cons_of_mem _ hmem)

/-- The directory measure only shrinks as the directory fills up. -/
theorem newPaths_subset (env : Env) (M : Mapped) (extra : String) {fs fs2 : List String}
    (hsub : ∀ q, q ∈ fs → q ∈ fs2) :
    newPaths env M extra fs2 ≤ newPaths env M extra fs := by
  apply filterLenMono
  intro x hx
  simp only [decide_eq_true_eq] at hx ⊢
  exact fun hmem => hx (hsub x hmem)

/-- A zero directory measure means every candidate path already exists. -/
theorem newPaths_zero (env : Env) (M : Mapped) (extra : String) (fs : List String)
    (h0 : newPaths env M extra fs = 0) : ∀ q ∈ pathUniv env M extra, q ∈ fs := by
  intro q hq
  by_contra hqf
  have : q ∈ (pathUniv env M extra).filter (fun q => decide (q ∉ fs)) :=
    List.mem_filter.mpr ⟨hq, by simpa using hqf⟩
  have := List.length_pos.mpr (List.ne_nil_of_mem this)
  unfold newPaths at h0
  omega

/-! ## Index and descriptor facts -/

/-- Lemma: `mappedStep` keeps the recorded walk list. -/
theorem mappedStep_parts (env : Env) (M : Mapped) (p : MimePart) :
    (mappedStep env M p).parts = M.parts := by
  unfold mappedStep
  cases p.startParam <;> cases p.location <;> cases p.cid <;> simp

/-- Lemma: `buildMapped` records the walk list unchanged. -/
theorem buildMapped_parts (env : Env) (walk : List MimePart) :
    (buildMapped env walk).parts = walk := by
  unfold buildMapped
  suffices h : ∀ (l : List MimePart) (M0 : Mapped),
      (l.foldl (mappedStep env) M0).parts = M0.parts by
    exact h walk _
  intro l
  induction l with
  | nil => intro M0; rfl
  | cons a l ih => intro M0; rw [List.foldl_cons, ih, mappedStep_parts]

/-- Values stored by `mappedStep` into `by_id` are the stepped part or old
values. -/
theorem mappedStep_by_id (env : Env) (M : Mapped) (p : MimePart) :
    ∀ kp ∈ (mappedStep env M p).by_id, kp.2 = p ∨ kp ∈ M.by_id := by
  unfold mappedStep
  cases p.startParam <;> cases p.location <;> cases p.cid <;>
    simp [dictSet] <;> intro a b h <;> tauto

/-- Values stored by `mappedStep` into `by_loc` are the stepped part or old
values. -/
theorem mappedStep_by_loc (env : Env) (M : Mapped) (p : MimePart) :
    ∀ kp ∈ (mappedStep env M p).by_loc, kp.2 = p ∨ kp ∈ M.by_loc := by
  unfold mappedStep
  cases p.startParam <;> cases p.location <;> cases p.cid <;>
    simp [dictSet] <;> intro a b h <;> tauto

/-- A successful association-list lookup returns a stored value. -/
theorem dictGet_mem {m : List (String × MimePart)} {k : String} {p : MimePart}
    (h : dictGet m k = some p) : ∃ kp ∈ m, kp.2 = p := by
  unfold dictGet at h
  cases hf : m.find? (fun q => q.1 == k) with
  | none => rw [hf] at h; simp at h
  | some kp =>
    rw [hf] at h
    simp at h
    exact ⟨kp, List.mem_of_find?_eq_some hf, h⟩

/-- Well-formedness of a part index: every stored value is a part of the
walk. -/
def WFMapped (M : Mapped) : Prop :=
  (∀ kp ∈ M.by_id, kp.2 ∈ M.parts) ∧ (∀ kp ∈ M.by_loc, kp.2 ∈ M.parts)

instance (M : Mapped) : Decidable (WFMapped M) := by
  unfold WFMapped; infer_instance

/-- The index built by `Mapped.__init__` is well-formed. -/
theorem buildMapped_wf (env : Env) (walk : List MimePart) : WFMapped (buildMapped env walk) := by
  rw [WFMapped, buildMapped_parts]
  unfold buildMapped
  suffices h : ∀ (l : List MimePart) (M0 : Mapped),
      (∀ kp ∈ M0.by_id, kp.2 ∈ walk) → (∀ kp ∈ M0.by_loc, kp.2 ∈ walk) →
      (∀ x ∈ l, x ∈ walk) →
      (∀ kp ∈ (l.foldl (mappedStep env) M0).by_id, kp.2 ∈ walk) ∧
      (∀ kp ∈ (l.foldl (mappedStep env) M0).by_loc, kp.2 ∈ walk) by
    exact h walk _ (by simp) (by simp) (fun x hx => hx)
  intro l
  induction l with
  | nil => intro M0 h1 h2 _; exact ⟨h1, h2⟩
  | cons a l ih =>
    intro M0 h1 h2 hmem
    rw [List.foldl_cons]
    refine ih (mappedStep env M0 a) ?_ ?_ (fun x hx => hmem x (List.mem_cons_of_mem _ hx))
    · intro kp hkp
      rcases mappedStep_by_id env M0 a kp hkp with heq | hold
      · rw [heq]; exact hmem a (List.mem_cons_self _ _)
      · exact h1 kp hold
    · intro kp hkp
      rcases mappedStep_by_loc env M0 a kp hkp with heq | hold
      · rw [heq]; exact hmem a (List.mem_cons_self _ _)
      · exact h2 kp hold

/-- In a well-formed index, `by_id` hits are parts of the message. -/
theorem by_id_parts {M : Mapped} (hwf : WFMapped M) {k : String} {p : MimePart}
    (h : dictGet M.by_id k = some p) : p ∈ M.parts := by
  obtain ⟨kp, hkp, rfl⟩ := dictGet_mem h
  exact hwf.1 kp hkp

/-- In a well-formed index, `by_loc` hits are parts of the message. -/
theorem by_loc_parts {M : Mapped} (hwf : WFMapped M) {k : String} {p : MimePart}
    (h : dictGet M.by_loc k = some p) : p ∈ M.parts := by
  obtain ⟨kp, hkp, rfl⟩ := dictGet_mem h
  exact hwf.2 kp hkp

/-- The fields of a successfully built descriptor, in terms of the part and
the recommendation. -/
theorem describe_fields {env : Env} {p : MimePart} {rec : String} {h : PartHelper}
    (hd : describe env p rec = .ok h) :
    h.part = p ∧ h.payload = p.payload ∧ h.content_type = resolvedMime env p rec ∧
    h.extension = find_extension env (resolvedMime env p rec) ∧ h.digest = digestOf p := by
  unfold describe at hd
  cases hp : p.payload with
  | vbytes b =>
    rw [hp] at hd
    simp at hd
    rw [← hd]
    simp [digestOf, hp]
  | vnone => rw [hp] at hd; simp at hd
  | vstr s => rw [hp] at hd; simp at hd

/-- A successfully built descriptor carries a byte payload. -/
theorem describe_ok_bytes {env : Env} {p : MimePart} {rec : String} {h : PartHelper}
    (hd : describe env p rec = .ok h) : ∃ b, p.payload = .vbytes b := by
  unfold describe at hd
  cases hp : p.payload with
  | vbytes b => exact ⟨b, rfl⟩
  | vnone => rw [hp] at hd; simp at hd
  | vstr s => rw [hp] at hd; simp at hd

/-- The blob path of a built descriptor is determined by part and
recommendation. -/
theorem pathD_describe {env : Env} {p : MimePart} {rec : String} {h : PartHelper}
    (hd : describe env p rec = .ok h) : pathD h = pathFor env p rec := by
  obtain ⟨_, _, _, hext, hdig⟩ := describe_fields hd
  unfold pathD pathFor
  rw [hext, hdig]

/-- Lemma: `pyLen` only fails with a raised `TypeError`. -/
theorem pyLen_ne_timeout (v : PyVal) : pyLen v ≠ .error .timeout := by
  cases v <;> simp [pyLen]

/-- Lemma: `compress_data` involves no recursion: it can only fail with a raised
`TypeError`, never with fuel exhaustion. -/
theorem compress_data_ne_timeout (env : Env) (d : PyVal) (m : String) :
    compress_data env d m ≠ .error .timeout := by
  unfold compress_data
  by_cases hm : m = ""
  · simp [hm]
  · simp only [hm, if_false]
    cases getCompressor env (baseMimeType m) with
    | none => simp
    | some comp =>
      simp only
      cases h1 : pyLen (match comp d with | .inl d => (d, m) | .inr dm => dm).1 with
      | error e =>
        cases e
        · simp [h1]
        · exact absurd h1 (pyLen_ne_timeout _)
      | ok ln =>
        cases h2 : pyLen d with
        | error e =>
          cases e
          · simp [h1, h2]
          · exact absurd h2 (pyLen_ne_timeout _)
        | ok ld => by_cases hlt : ln < ld <;> simp [h1, h2, hlt]

/-- The set of existing paths only grows across a successful renderer call
(stated simultaneously for the four mutually recursive functions). -/
theorem fsGrows (env : Env) (M : Mapped) (st : Strat) :
    ∀ f : Nat,
    (∀ h seen fs r, render env M st f h seen fs = .ok r → ∀ q ∈ fs, q ∈ r.2.2) ∧
    (∀ doc base seen fs r, renderTags env M st f doc base seen fs = .ok r → ∀ q ∈ fs, q ∈ r.2) ∧
    (∀ attrs tag base seen fs r, renderAttrs env M st f attrs tag base seen fs = .ok r →
      ∀ q ∈ fs, q ∈ r.2) ∧
    (∀ h seen fs r, render_data env M st f h seen fs = .ok r → ∀ q ∈ fs, q ∈ r.2) := by
  intro f
  induction f with
  | zero =>
    refine ⟨?_, ?_, ?_, ?_⟩
    · intro h seen fs r hok; exact absurd hok (by simp [render])
    · intro doc base seen fs r hok; exact absurd hok (by simp [renderTags])
    · intro attrs tag base seen fs r hok; exact absurd hok (by simp [renderAttrs])
    · intro h seen fs r hok; exact absurd hok (by simp [render_data])
  | succ f ih =>
    obtain ⟨ihR, ihT, ihA, ihD⟩ := ih
    refine ⟨?_, ?_, ?_, ?_⟩
    · -- render
      intro h seen fs r hok q hq
      by_cases hct : h.content_type = "text/html"
      · cases hp : env.parseHtml h.payload with
        | none => simp [render, hct, hp] at hok
        | some doc =>
          by_cases hb : (doc.filter (fun t => t.name == "base")).take 1 = []
          · cases hrt : renderTags env M st f doc
                (env.urljoin (pyStrip (h.part.location.getD "")) (h.part.contentBase.getD ""))
                seen fs with
            | error e => simp [render, hct, hp, hb, hrt] at hok
            | ok pr =>
              simp [render, hct, hp, hb, hrt] at hok
              have := ihT doc _ seen fs pr hrt q hq
              rw [← hok]
              simpa using this
          · simp [render, hct, hp, hb] at hok
      · cases hd : h.payload with
        | vnone => simp [render, hct, hd] at hok; rw [← hok]; exact hq
        | vbytes b => simp [render, hct, hd] at hok; rw [← hok]; exact hq
        | vstr s => simp [render, hct, hd] at hok; rw [← hok]; exact hq
    · -- renderTags
      intro doc base seen fs r hok q hq
      cases doc with
      | nil => simp [renderTags] at hok; rw [← hok]; exact hq
      | cons tag rest =>
        cases hra : renderAttrs env M st f (refsGet tag.name) tag base seen fs with
        | error e => simp [renderTags, hra] at hok
        | ok pr =>
          cases hrt : renderTags env M st f rest base seen pr.2 with
          | error e => simp [renderTags, hra, hrt] at hok
          | ok pr2 =>
            simp [renderTags, hra, hrt] at hok
            have s1 := ihA (refsGet tag.name) tag base seen fs pr hra q hq
            have s2 := ihT rest base seen pr.2 pr2 hrt q s1
            rw [← hok]
            exact s2
    · -- renderAttrs
      intro attrs tag base seen fs r hok q hq
      induction attrs generalizing tag fs with
      | nil => simp [renderAttrs] at hok; rw [← hok]; exact hq
      | cons attr attrRest ihList =>
        by_cases hhref : pyStrip (tagGet tag attr) = ""
        · rw [show renderAttrs env M st (f + 1) (attr :: attrRest) tag base seen fs =
              renderAttrs env M st f attrRest tag base seen fs by simp [renderAttrs, hhref]] at hok
          exact ihA attrRest tag base seen fs r hok q hq
        · set href := pyStrip (tagGet tag attr) with hhdef
          cases hm : (if urlScheme href = "cid"
                      then dictGet M.by_id (urlPath href)
                      else dictGet M.by_loc (env.urljoin base href)) with
          | none =>
            rw [show renderAttrs env M st (f + 1) (attr :: attrRest) tag base seen fs =
                renderAttrs env M st f attrRest tag base seen fs by
              simp [renderAttrs, hhref, ← hhdef, hm]] at hok
            exact ihA attrRest tag base seen fs r hok q hq
          | some mp =>
            cases hd : describe env mp (pyLower (pyStrip (tagGet tag "type"))) with
            | error e => simp [renderAttrs, hhref, ← hhdef, hm, hd] at hok
            | ok h2 =>
              cases hrd : render_data env M st f h2 seen fs with
              | error e => simp [renderAttrs, hhref, ← hhdef, hm, hd, hrd] at hok
              | ok pr =>
                have s1 := ihD h2 seen fs pr hrd q hq
                cases hres : pr.1 with
                | none =>
                  rw [show renderAttrs env M st (f + 1) (attr :: attrRest) tag base seen fs =
                      renderAttrs env M st f attrRest tag base seen pr.2 by
                    simp [renderAttrs, hhref, ← hhdef, hm, hd, hrd, hres]] at hok
                  exact ihA attrRest tag base seen pr.2 r hok q s1
                | some newHref =>
                  rw [show renderAttrs env M st (f + 1) (attr :: attrRest) tag base seen fs =
                      renderAttrs env M st f attrRest (tagSet tag attr newHref) base seen pr.2 by
                    simp [renderAttrs, hhref, ← hhdef, hm, hd, hrd, hres]] at hok
                  exact ihA attrRest (tagSet tag attr newHref) base seen pr.2 r hok q s1
    · -- render_data
      intro h seen fs r hok q hq
      cases st with
      | inlineData =>
        by_cases hmem : h.digest ∈ seen
        · simp [render_data, hmem] at hok; rw [← hok]; exact hq
        · cases hrr : render env M .inlineData f h (h.digest :: seen) fs with
          | error e => simp [render_data, hmem, hrr] at hok
          | ok tr =>
            have s1 := ihR h (h.digest :: seen) fs tr hrr q hq
            cases hc : compress_data env tr.1 tr.2.1 with
            | error e => simp [render_data, hmem, hrr, hc] at hok
            | ok pr2 =>
              cases hb2 : pr2.1 with
              | vbytes b =>
                simp [render_data, hmem, hrr, hc, hb2] at hok
                rw [← hok]
                exact s1
              | vnone => simp [render_data, hmem, hrr, hc, hb2] at hok
              | vstr s => simp [render_data, hmem, hrr, hc, hb2] at hok
      | dataDirectory =>
        by_cases hmem : ("blob=" ++ h.digest ++ h.extension) ∈ fs
        · simp [render_data, hmem] at hok; rw [← hok]; exact hq
        · cases hrr : render env M .dataDirectory f h seen
              (("blob=" ++ h.digest ++ h.extension) :: fs) with
          | error e => simp [render_data, hmem, hrr] at hok
          | ok tr =>
            have s1 := ihR h seen (("blob=" ++ h.digest ++ h.extension) :: fs) tr hrr q
              (List.mem_cons_of_mem _ hq)
            cases hc : compress_data env tr.1 tr.2.1 with
            | error e => simp [render_data, hmem, hrr, hc] at hok
            | ok pr2 =>
              cases hb2 : pr2.1 with
              | vbytes b =>
                simp [render_data, hmem, hrr, hc, hb2] at hok
                rw [← hok]
                exact s1
              | vnone => simp [render_data, hmem, hrr, hc, hb2] at hok
              | vstr s => simp [render_data, hmem, hrr, hc, hb2] at hok

/-- Lemma: `describe` never exhausts fuel. -/
theorem describe_ne_timeout (env : Env) (p : MimePart) (rec : String) :
    describe env p rec ≠ .error .timeout := by
  unfold describe
  cases p.payload <;> simp

/-- Inline strategy: the attribute loop does not exhaust fuel provided
`render_data` does not, at digest measure at most `n`. -/
theorem inlineTermRA (env : Env) (M : Mapped) (hwf : WFMapped M) (n : Nat)
    (hRD : ∀ (h2 : PartHelper) (seen fs : List String), h2.digest ∈ univDigests M →
      newDigests M seen ≤ n →
      ∃ f, render_data env M .inlineData f h2 seen fs ≠ .error .timeout) :
    ∀ (attrs : List String) (tag : Tag) (base : String) (seen fs : List String),
      newDigests M seen ≤ n →
      ∃ f, renderAttrs env M .inlineData f attrs tag base seen fs ≠ .error .timeout := by
  intro attrs
  induction attrs with
  | nil => exact fun tag base seen fs _ => ⟨1, by simp [renderAttrs]⟩
  | cons attr attrRest ih =>
    intro tag base seen fs hmsr
    by_cases hhref : pyStrip (tagGet tag attr) = ""
    · obtain ⟨f2, hf2⟩ := ih tag base seen fs hmsr
      exact ⟨f2 + 1, by simpa [renderAttrs, hhref] using hf2⟩
    · have hmain : ∀ mp : MimePart, mp ∈ M.parts →
          (if urlScheme (pyStrip (tagGet tag attr)) = "cid"
           then dictGet M.by_id (urlPath (pyStrip (tagGet tag attr)))
           else dictGet M.by_loc (env.urljoin base (pyStrip (tagGet tag attr)))) = some mp →
          ∃ f, renderAttrs env M .inlineData f (attr :: attrRest) tag base seen fs ≠
            .error .timeout := by
        intro mp hmp hm
        cases hd : describe env mp (pyLower (pyStrip (tagGet tag "type"))) with
        | error e =>
          cases e with
          | typeError => exact ⟨1, by simp [renderAttrs, hhref, hm, hd]⟩
          | timeout => exact absurd hd (describe_ne_timeout env mp _)
        | ok h2 =>
          have hdig : h2.digest ∈ univDigests M := by
            obtain ⟨_, _, _, _, hdg⟩ := describe_fields hd
            rw [hdg]
            unfold univDigests
            exact List.mem_map.mpr ⟨mp, hmp, rfl⟩
          obtain ⟨f1, hf1⟩ := hRD h2 seen fs hdig hmsr
          cases hrd : render_data env M .inlineData f1 h2 seen fs with
          | error e =>
            cases e with
            | timeout => exact absurd hrd hf1
            | typeError => exact ⟨f1 + 1, by simp [renderAttrs, hhref, hm, hd, hrd]⟩
          | ok pr =>
            obtain ⟨res, fs2⟩ := pr
            cases res with
            | none =>
              obtain ⟨f2, hf2⟩ := ih tag base seen fs2 hmsr
              refine ⟨max f1 f2 + 1, ?_⟩
              have hrd2 := render_dataMono env M .inlineData (le_max_left f1 f2) hrd (by simp)
              have heq := (fuelMono env M .inlineData f2 (max f1 f2) (le_max_right f1 f2)).2.2.1
                attrRest tag base seen fs2 hf2
              simpa [renderAttrs, hhref, hm, hd, hrd2, heq] using hf2
            | some newHref =>
              obtain ⟨f2, hf2⟩ := ih (tagSet tag attr newHref) base seen fs2 hmsr
              refine ⟨max f1 f2 + 1, ?_⟩
              have hrd2 := render_dataMono env M .inlineData (le_max_left f1 f2) hrd (by simp)
              have heq := (fuelMono env M .inlineData f2 (max f1 f2) (le_max_right f1 f2)).2.2.1
                attrRest (tagSet tag attr newHref) base seen fs2 hf2
              simpa [renderAttrs, hhref, hm, hd, hrd2, heq] using hf2
      by_cases hcid : urlScheme (pyStrip (tagGet tag attr)) = "cid"
      · cases hm : dictGet M.by_id (urlPath (pyStrip (tagGet tag attr))) with
        | none =>
          obtain ⟨f2, hf2⟩ := ih tag base seen fs hmsr
          exact ⟨f2 + 1, by simpa [renderAttrs, hhref, hcid, hm] using hf2⟩
        | some mp => exact hmain mp (by_id_parts hwf hm) (by simp [hcid, hm])
      · cases hm : dictGet M.by_loc (env.urljoin base (pyStrip (tagGet tag attr))) with
        | none =>
          obtain ⟨f2, hf2⟩ := ih tag base seen fs hmsr
          exact ⟨f2 + 1, by simpa [renderAttrs, hhref, hcid, hm] using hf2⟩
        | some mp => exact hmain mp (by_loc_parts hwf hm) (by simp [hcid, hm])

/-- Inline strategy: the tag loop does not exhaust fuel provided
`render_data` does not, at digest measure at most `n`. -/
theorem inlineTermRT (env : Env) (M : Mapped) (hwf : WFMapped M) (n : Nat)
    (hRD : ∀ (h2 : PartHelper) (seen fs : List String), h2.digest ∈ univDigests M →
      newDigests M seen ≤ n →
      ∃ f, render_data env M .inlineData f h2 seen fs ≠ .error .timeout) :
    ∀ (doc : Doc) (base : String) (seen fs : List String), newDigests M seen ≤ n →
      ∃ f, renderTags env M .inlineData f doc base seen fs ≠ .error .timeout := by
  intro doc
  induction doc with
  | nil => exact fun base seen fs _ => ⟨1, by simp [renderTags]⟩
  | cons tag rest ih =>
    intro base seen fs hmsr
    obtain ⟨f1, hf1⟩ := inlineTermRA env M hwf n hRD (refsGet tag.name) tag base seen fs hmsr
    cases hra : renderAttrs env M .inlineData f1 (refsGet tag.name) tag base seen fs with
    | error e =>
      cases e with
      | timeout => exact absurd hra hf1
      | typeError => exact ⟨f1 + 1, by simp [renderTags, hra]⟩
    | ok pr =>
      obtain ⟨tag2, fs2⟩ := pr
      obtain ⟨f2, hf2⟩ := ih base seen fs2 hmsr
      refine ⟨max f1 f2 + 1, ?_⟩
      have hra2 := renderAttrsMono env M .inlineData (le_max_left f1 f2) hra (by simp)
      have heq := (fuelMono env M .inlineData f2 (max f1 f2) (le_max_right f1 f2)).2.1
        rest base seen fs2 hf2
      cases hrt : renderTags env M .inlineData f2 rest base seen fs2 with
      | error e =>
        cases e with
        | timeout => exact absurd hrt hf2
        | typeError => simp [renderTags, hra2, heq, hrt]
      | ok pr2 => simp [renderTags, hra2, heq, hrt]

/-- Inline strategy: `render` does not exhaust fuel provided `render_data`
does not, at digest measure at most `n`. -/
theorem inlineTermR (env : Env) (M : Mapped) (hwf : WFMapped M) (n : Nat)
    (hRD : ∀ (h2 : PartHelper) (seen fs : List String), h2.digest ∈ univDigests M →
      newDigests M seen ≤ n →
      ∃ f, render_data env M .inlineData f h2 seen fs ≠ .error .timeout) :
    ∀ (h : PartHelper) (seen fs : List String), newDigests M seen ≤ n →
      ∃ f, render env M .inlineData f h seen fs ≠ .error .timeout := by
  intro h seen fs hmsr
  by_cases hct : h.content_type = "text/html"
  · cases hp : env.parseHtml h.payload with
    | none => exact ⟨1, by simp [render, hct, hp]⟩
    | some doc =>
      by_cases hb : (doc.filter (fun t => t.name == "base")).take 1 = []
      · obtain ⟨f1, hf1⟩ := inlineTermRT env M hwf n hRD doc
          (env.urljoin (pyStrip (h.part.location.getD "")) (h.part.contentBase.getD ""))
          seen fs hmsr
        cases hrt : renderTags env M .inlineData f1 doc
            (env.urljoin (pyStrip (h.part.location.getD "")) (h.part.contentBase.getD ""))
            seen fs with
        | error e =>
          cases e with
          | timeout => exact absurd hrt hf1
          | typeError => exact ⟨f1 + 1, by simp [render, hct, hp, hb, hrt]⟩
        | ok pr => exact ⟨f1 + 1, by simp [render, hct, hp, hb, hrt]⟩
      · exact ⟨1, by simp [render, hct, hp, hb]⟩
  · cases hpay : h.payload with
    | vnone => exact ⟨1, by simp [render, hct, hpay]⟩
    | vbytes b => exact ⟨1, by simp [render, hct, hpay]⟩
    | vstr s => exact ⟨1, by simp [render, hct, hpay]⟩

/-- Inline strategy: `render_data` does not exhaust fuel, by induction on the
number of part digests not yet seen. -/
theorem inlineTermRD (env : Env) (M : Mapped) (hwf : WFMapped M) :
    ∀ (n : Nat) (h : PartHelper) (seen fs : List String), h.digest ∈ univDigests M →
      newDigests M seen ≤ n →
      ∃ f, render_data env M .inlineData f h seen fs ≠ .error .timeout := by
  intro n
  induction n with
  | zero =>
    intro h seen fs hdig hmsr
    have hmem : h.digest ∈ seen := newDigests_zero M seen (by omega) h.digest hdig
    exact ⟨1, by simp [render_data, hmem]⟩
  | succ n ihn =>
    intro h seen fs hdig hmsr
    by_cases hmem : h.digest ∈ seen
    · exact ⟨1, by simp [render_data, hmem]⟩
    · have hlt : newDigests M (h.digest :: seen) ≤ n := by
        have := newDigests_insert M seen h.digest hdig hmem
        omega
      obtain ⟨f1, hf1⟩ := inlineTermR env M hwf n ihn h (h.digest :: seen) fs hlt
      cases hrr : render env M .inlineData f1 h (h.digest :: seen) fs with
      | error e =>
        cases e with
        | timeout => exact absurd hrr hf1
        | typeError => exact ⟨f1 + 1, by simp [render_data, hmem, hrr]⟩
      | ok tr =>
        obtain ⟨binary, ct2, fs2⟩ := tr
        refine ⟨f1 + 1, ?_⟩
        cases hc : compress_data env binary ct2 with
        | error e =>
          cases e with
          | timeout => exact absurd hc (compress_data_ne_timeout env binary ct2)
          | typeError => simp [render_data, hmem, hrr, hc]
        | ok pr2 =>
          obtain ⟨b2, ct3⟩ := pr2
          cases b2 with
          | vbytes bb => simp [render_data, hmem, hrr, hc]
          | vnone => simp [render_data, hmem, hrr, hc]
          | vstr s => simp [render_data, hmem, hrr, hc]

/-- The inline strategy terminates on every input over a well-formed index:
some finite fuel completes the render without exhaustion. -/
theorem inlineTermination (env : Env) (M : Mapped) (hwf : WFMapped M)
    (h : PartHelper) (seen fs : List String) :
    ∃ f, render env M .inlineData f h seen fs ≠ .error .timeout :=
  inlineTermR env M hwf (newDigests M seen)
    (fun h2 s2 fs2 hd hm => inlineTermRD env M hwf (newDigests M seen) h2 s2 fs2 hd hm)
    h seen fs (le_refl _)

/-- Looking up a different attribute is unaffected by `setAttr`. -/
theorem setAttr_find_ne (l : List (String × String)) (a v b : String) (hab : a ≠ b) :
    (setAttr l a v).find? (fun p => p.1 == b) = l.find? (fun p => p.1 == b) := by
  have habf : (a == b) = false := beq_eq_false_iff_ne.mpr hab
  induction l with
  | nil => simp [setAttr, List.find?, habf]
  | cons kv rest ih =>
    obtain ⟨k, w⟩ := kv
    by_cases hk : k = a
    · subst hk
      simp [setAttr, List.find?, habf]
    · by_cases hkb : k = b
      · subst hkb
        simp [setAttr, hk, List.find?]
      · have hkbf : (k == b) = false := beq_eq_false_iff_ne.mpr hkb
        simp [setAttr, hk, List.find?, hkbf, ih]

/-- Looking up the written attribute after `setAttr` yields the new value. -/
theorem setAttr_find_eq (l : List (String × String)) (a v : String) :
    (setAttr l a v).find? (fun p => p.1 == a) = some (a, v) := by
  induction l with
  | nil => simp [setAttr, List.find?]
  | cons kv rest ih =>
    obtain ⟨k, w⟩ := kv
    by_cases hk : k = a
    · subst hk
      simp [setAttr, List.find?]
    · have hkf : (k == a) = false := beq_eq_false_iff_ne.mpr hk
      simp [setAttr, hk, List.find?, hkf, ih]

/-- Reading `tag.get` after writing a different attribute. -/
theorem tagGet_tagSet_ne (t : Tag) (a v b : String) (hab : a ≠ b) :
    tagGet (tagSet t a v) b = tagGet t b := by
  unfold tagGet tagSet
  rw [setAttr_find_ne t.attrs a v b hab]

/-- Reading `tag.get` after writing the same attribute. -/
theorem tagGet_tagSet_eq (t : Tag) (a v : String) : tagGet (tagSet t a v) a = v := by
  unfold tagGet tagSet
  rw [setAttr_find_eq t.attrs a v]
  rfl

/-- No tag's reference-attribute list contains `type` (so rewriting reference
attributes never disturbs the type hint). -/
theorem type_not_in_refs (name : String) : "type" ∉ refsGet name := by
  unfold refsGet
  cases hf : refs.find? (fun p => p.1 == name) with
  | none => simp
  | some pr =>
    have hmem : pr ∈ refs := List.mem_of_find?_eq_some hf
    have hall : ∀ q ∈ refs, "type" ∉ q.2 := by decide
    simpa using hall pr hmem

/-- No tag's reference-attribute list has duplicates. -/
theorem refs_nodup (name : String) : (refsGet name).Nodup := by
  unfold refsGet
  cases hf : refs.find? (fun p => p.1 == name) with
  | none => simp
  | some pr =>
    have hmem : pr ∈ refs := List.mem_of_find?_eq_some hf
    have hall : ∀ q ∈ refs, q.2.Nodup := by decide
    simpa using hall pr hmem

/-- Candidate blob paths of describable references lie in the path
universe. -/
theorem pathFor_mem_univ (env : Env) (M : Mapped) (extra : String) {mp : MimePart}
    {rec : String} (hmp : mp ∈ M.parts) (hrec : rec ∈ hintUniv env M extra) :
    pathFor env mp rec ∈ pathUniv env M extra := by
  unfold pathUniv
  apply List.mem_flatten.mpr
  exact ⟨(hintUniv env M extra).map (fun rec => pathFor env mp rec),
    List.mem_map.mpr ⟨mp, hmp, rfl⟩, List.mem_map.mpr ⟨rec, hrec, rfl⟩⟩

/-- Type hints read from a part's parsed document lie in the hint
universe. -/
theorem hint_mem_univ (env : Env) (M : Mapped) (extra : String) {p : MimePart} {doc : Doc}
    {tag : Tag} (hp : p ∈ M.parts) (hdoc : env.parseHtml p.payload = some doc)
    (htag : tag ∈ doc) :
    pyLower (pyStrip (tagGet tag "type")) ∈ hintUniv env M extra := by
  unfold hintUniv
  apply List.mem_cons_of_mem
  apply List.mem_cons_of_mem
  apply List.mem_flatten.mpr
  refine ⟨docHints env p, List.mem_map.mpr ⟨p, hp, rfl⟩, ?_⟩
  unfold docHints
  rw [hdoc]
  exact List.mem_map.mpr ⟨tag, htag, rfl⟩

/-- Directory strategy: the attribute loop does not exhaust fuel provided
`render_data` does not, at path measure at most `n`. -/
theorem dirTermRA (env : Env) (M : Mapped) (extra : String) (hwf : WFMapped M) (n : Nat)
    (hRD : ∀ (h2 : PartHelper) (seen fs : List String),
      (∃ p ∈ M.parts, ∃ rec ∈ hintUniv env M extra, describe env p rec = .ok h2) →
      newPaths env M extra fs ≤ n →
      ∃ f, render_data env M .dataDirectory f h2 seen fs ≠ .error .timeout) :
    ∀ (attrs : List String) (tag : Tag) (base : String) (seen fs : List String),
      pyLower (pyStrip (tagGet tag "type")) ∈ hintUniv env M extra → "type" ∉ attrs →
      newPaths env M extra fs ≤ n →
      ∃ f, renderAttrs env M .dataDirectory f attrs tag base seen fs ≠ .error .timeout := by
  intro attrs
  induction attrs with
  | nil => exact fun tag base seen fs _ _ _ => ⟨1, by simp [renderAttrs]⟩
  | cons attr attrRest ih =>
    intro tag base seen fs hhint htype hmsr
    have htype2 : "type" ∉ attrRest := fun hx => htype (List.mem_cons_of_mem _ hx)
    have hattr : attr ≠ "type" := fun hx => htype (hx ▸ List.mem_cons_self _ _)
    by_cases hhref : pyStrip (tagGet tag attr) = ""
    · obtain ⟨f2, hf2⟩ := ih tag base seen fs hhint htype2 hmsr
      exact ⟨f2 + 1, by simpa [renderAttrs, hhref] using hf2⟩
    · have hmain : ∀ mp : MimePart, mp ∈ M.parts →
          (if urlScheme (pyStrip (tagGet tag attr)) = "cid"
           then dictGet M.by_id (urlPath (pyStrip (tagGet tag attr)))
           else dictGet M.by_loc (env.urljoin base (pyStrip (tagGet tag attr)))) = some mp →
          ∃ f, renderAttrs env M .dataDirectory f (attr :: attrRest) tag base seen fs ≠
            .error .timeout := by
        intro mp hmp hm
        cases hd : describe env mp (pyLower (pyStrip (tagGet tag "type"))) with
        | error e =>
          cases e with
          | typeError => exact ⟨1, by simp [renderAttrs, hhref, hm, hd]⟩
          | timeout => exact absurd hd (describe_ne_timeout env mp _)
        | ok h2 =>
          obtain ⟨f1, hf1⟩ := hRD h2 seen fs ⟨mp, hmp, _, hhint, hd⟩ hmsr
          cases hrd : render_data env M .dataDirectory f1 h2 seen fs with
          | error e =>
            cases e with
            | timeout => exact absurd hrd hf1
            | typeError => exact ⟨f1 + 1, by simp [renderAttrs, hhref, hm, hd, hrd]⟩
          | ok pr =>
            obtain ⟨res, fs2⟩ := pr
            have hfs2 : newPaths env M extra fs2 ≤ n := by
              have hsub := (fsGrows env M .dataDirectory f1).2.2.2 h2 seen fs (res, fs2) hrd
              exact le_trans (newPaths_subset env M extra hsub) hmsr
            cases res with
            | none =>
              obtain ⟨f2, hf2⟩ := ih tag base seen fs2 hhint htype2 hfs2
              refine ⟨max f1 f2 + 1, ?_⟩
              have hrd2 := render_dataMono env M .dataDirectory (le_max_left f1 f2) hrd (by simp)
              have heq := (fuelMono env M .dataDirectory f2 (max f1 f2) (le_max_right f1 f2)).2.2.1
                attrRest tag base seen fs2 hf2
              simpa [renderAttrs, hhref, hm, hd, hrd2, heq] using hf2
            | some newHref =>
              have hhint2 : pyLower (pyStrip (tagGet (tagSet tag attr newHref) "type")) ∈
                  hintUniv env M extra := by
                rw [tagGet_tagSet_ne tag attr newHref "type" hattr]
                exact hhint
              obtain ⟨f2, hf2⟩ := ih (tagSet tag attr newHref) base seen fs2 hhint2 htype2 hfs2
              refine ⟨max f1 f2 + 1, ?_⟩
              have hrd2 := render_dataMono env M .dataDirectory (le_max_left f1 f2) hrd (by simp)
              have heq := (fuelMono env M .dataDirectory f2 (max f1 f2) (le_max_right f1 f2)).2.2.1
                attrRest (tagSet tag attr newHref) base seen fs2 hf2
              simpa [renderAttrs, hhref, hm, hd, hrd2, heq] using hf2
      by_cases hcid : urlScheme (pyStrip (tagGet tag attr)) = "cid"
      · cases hm : dictGet M.by_id (urlPath (pyStrip (tagGet tag attr))) with
        | none =>
          obtain ⟨f2, hf2⟩ := ih tag base seen fs hhint htype2 hmsr
          exact ⟨f2 + 1, by simpa [renderAttrs, hhref, hcid, hm] using hf2⟩
        | some mp => exact hmain mp (by_id_parts hwf hm) (by simp [hcid, hm])
      · cases hm : dictGet M.by_loc (env.urljoin base (pyStrip (tagGet tag attr))) with
        | none =>
          obtain ⟨f2, hf2⟩ := ih tag base seen fs hhint htype2 hmsr
          exact ⟨f2 + 1, by simpa [renderAttrs, hhref, hcid, hm] using hf2⟩
        | some mp => exact hmain mp (by_loc_parts hwf hm) (by simp [hcid, hm])

/-- Directory strategy: the tag loop does not exhaust fuel provided
`render_data` does not, at path measure at most `n`. -/
theorem dirTermRT (env : Env) (M : Mapped) (extra : String) (hwf : WFMapped M) (n : Nat)
    (hRD : ∀ (h2 : PartHelper) (seen fs : List String),
      (∃ p ∈ M.parts, ∃ rec ∈ hintUniv env M extra, describe env p rec = .ok h2) →
      newPaths env M extra fs ≤ n →
      ∃ f, render_data env M .dataDirectory f h2 seen fs ≠ .error .timeout) :
    ∀ (doc : Doc) (base : String) (seen fs : List String),
      (∀ t ∈ doc, pyLower (pyStrip (tagGet t "type")) ∈ hintUniv env M extra) →
      newPaths env M extra fs ≤ n →
      ∃ f, renderTags env M .dataDirectory f doc base seen fs ≠ .error .timeout := by
  intro doc
  induction doc with
  | nil => exact fun base seen fs _ _ => ⟨1, by simp [renderTags]⟩
  | cons tag rest ih =>
    intro base seen fs hhints hmsr
    obtain ⟨f1, hf1⟩ := dirTermRA env M extra hwf n hRD (refsGet tag.name) tag base seen fs
      (hhints tag (List.mem_cons_self _ _)) (type_not_in_refs tag.name) hmsr
    cases hra : renderAttrs env M .dataDirectory f1 (refsGet tag.name) tag base seen fs with
    | error e =>
      cases e with
      | timeout => exact absurd hra hf1
      | typeError => exact ⟨f1 + 1, by simp [renderTags, hra]⟩
    | ok pr =>
      obtain ⟨tag2, fs2⟩ := pr
      have hfs2 : newPaths env M extra fs2 ≤ n := by
        have hsub := (fsGrows env M .dataDirectory f1).2.2.1 (refsGet tag.name) tag base seen fs
          (tag2, fs2) hra
        exact le_trans (newPaths_subset env M extra hsub) hmsr
      obtain ⟨f2, hf2⟩ := ih base seen fs2 (fun t ht => hhints t (List.mem_cons_of_mem _ ht)) hfs2
      refine ⟨max f1 f2 + 1, ?_⟩
      have hra2 := renderAttrsMono env M .dataDirectory (le_max_left f1 f2) hra (by simp)
      have heq := (fuelMono env M .dataDirectory f2 (max f1 f2) (le_max_right f1 f2)).2.1
        rest base seen fs2 hf2
      cases hrt : renderTags env M .dataDirectory f2 rest base seen fs2 with
      | error e =>
        cases e with
        | timeout => exact absurd hrt hf2
        | typeError => simp [renderTags, hra2, heq, hrt]
      | ok pr2 => simp [renderTags, hra2, heq, hrt]

/-- Directory strategy: `render` does not exhaust fuel provided `render_data`
does not, at path measure at most `n`, for descriptors whose payload is a
message part's payload. -/
theorem dirTermR (env : Env) (M : Mapped) (extra : String) (hwf : WFMapped M) (n : Nat)
    (hRD : ∀ (h2 : PartHelper) (seen fs : List String),
      (∃ p ∈ M.parts, ∃ rec ∈ hintUniv env M extra, describe env p rec = .ok h2) →
      newPaths env M extra fs ≤ n →
      ∃ f, render_data env M .dataDirectory f h2 seen fs ≠ .error .timeout) :
    ∀ (h : PartHelper) (seen fs : List String), (∃ p ∈ M.parts, h.payload = p.payload) →
      newPaths env M extra fs ≤ n →
      ∃ f, render env M .dataDirectory f h seen fs ≠ .error .timeout := by
  intro h seen fs hpay hmsr
  by_cases hct : h.content_type = "text/html"
  · cases hp : env.parseHtml h.payload with
    | none => exact ⟨1, by simp [render, hct, hp]⟩
    | some doc =>
      by_cases hb : (doc.filter (fun t => t.name == "base")).take 1 = []
      · obtain ⟨p, hpmem, hpeq⟩ := hpay
        have hhints : ∀ t ∈ doc, pyLower (pyStrip (tagGet t "type")) ∈ hintUniv env M extra := by
          intro t ht
          exact hint_mem_univ env M extra hpmem (by rw [← hpeq]; exact hp) ht
        obtain ⟨f1, hf1⟩ := dirTermRT env M extra hwf n hRD doc
          (env.urljoin (pyStrip (h.part.location.getD "")) (h.part.contentBase.getD ""))
          seen fs hhints hmsr
        cases hrt : renderTags env M .dataDirectory f1 doc
            (env.urljoin (pyStrip (h.part.location.getD "")) (h.part.contentBase.getD ""))
            seen fs with
        | error e =>
          cases e with
          | timeout => exact absurd hrt hf1
          | typeError => exact ⟨f1 + 1, by simp [render, hct, hp, hb, hrt]⟩
        | ok pr => exact ⟨f1 + 1, by simp [render, hct, hp, hb, hrt]⟩
      · exact ⟨1, by simp [render, hct, hp, hb]⟩
  · cases hpayv : h.payload with
    | vnone => exact ⟨1, by simp [render, hct, hpayv]⟩
    | vbytes b => exact ⟨1, by simp [render, hct, hpayv]⟩
    | vstr s => exact ⟨1, by simp [render, hct, hpayv]⟩

/-- Directory strategy: `render_data` does not exhaust fuel on descriptors
built from message parts, by induction on the number of untouched candidate
blob paths — the placeholder file created before the recursive render is what
makes the measure drop. -/
theorem dirTermRD (env : Env) (M : Mapped) (extra : String) (hwf : WFMapped M) :
    ∀ (n : Nat) (h : PartHelper) (seen fs : List String),
      (∃ p ∈ M.parts, ∃ rec ∈ hintUniv env M extra, describe env p rec = .ok h) →
      newPaths env M extra fs ≤ n →
      ∃ f, render_data env M .dataDirectory f h seen fs ≠ .error .timeout := by
  intro n
  induction n with
  | zero =>
    intro h seen fs hdesc hmsr
    obtain ⟨p, hpmem, rec, hrec, hd⟩ := hdesc
    have hpath : pathD h ∈ pathUniv env M extra := by
      rw [pathD_describe hd]
      exact pathFor_mem_univ env M extra hpmem hrec
    have hmem : ("blob=" ++ h.digest ++ h.extension) ∈ fs := by
      have := newPaths_zero env M extra fs (by omega) (pathD h) hpath
      simpa [pathD] using this
    exact ⟨1, by simp [render_data, hmem]⟩
  | succ n ihn =>
    intro h seen fs hdesc hmsr
    by_cases hmem : ("blob=" ++ h.digest ++ h.extension) ∈ fs
    · exact ⟨1, by simp [render_data, hmem]⟩
    · obtain ⟨p, hpmem, rec, hrec, hd⟩ := hdesc
      have hpath : pathD h ∈ pathUniv env M extra := by
        rw [pathD_describe hd]
        exact pathFor_mem_univ env M extra hpmem hrec
      have hlt : newPaths env M extra (("blob=" ++ h.digest ++ h.extension) :: fs) ≤ n := by
        have := newPaths_insert env M extra fs (pathD h) hpath (by simpa [pathD] using hmem)
        unfold pathD at this
        omega
      have hpay : ∃ q ∈ M.parts, h.payload = q.payload := by
        obtain ⟨_, hpayl, _, _, _⟩ := describe_fields hd
        exact ⟨p, hpmem, hpayl⟩
      obtain ⟨f1, hf1⟩ := dirTermR env M extra hwf n ihn h seen
        (("blob=" ++ h.digest ++ h.extension) :: fs) hpay hlt
      cases hrr : render env M .dataDirectory f1 h seen
          (("blob=" ++ h.digest ++ h.extension) :: fs) with
      | error e =>
        cases e with
        | timeout => exact absurd hrr hf1
        | typeError => exact ⟨f1 + 1, by simp [render_data, hmem, hrr]⟩
      | ok tr =>
        obtain ⟨binary, ct2, fs2⟩ := tr
        refine ⟨f1 + 1, ?_⟩
        cases hc : compress_data env binary ct2 with
        | error e =>
          cases e with
          | timeout => exact absurd hc (compress_data_ne_timeout env binary ct2)
          | typeError => simp [render_data, hmem, hrr, hc]
        | ok pr2 =>
          obtain ⟨b2, ct3⟩ := pr2
          cases b2 with
          | vbytes bb => simp [render_data, hmem, hrr, hc]
          | vnone => simp [render_data, hmem, hrr, hc]
          | vstr s => simp [render_data, hmem, hrr, hc]

/-- The directory strategy also terminates — even on cyclic reference graphs
— when rendering any descriptor built from a message part over a well-formed
index: the placeholder blob file touched before the recursive render call
acts as the cycle breaker. -/
theorem dirTermination (env : Env) (M : Mapped) (hwf : WFMapped M) (p : MimePart)
    (hint : String) (hp : p ∈ M.parts) (h : PartHelper)
    (hd : describe env p hint = .ok h) (seen fs : List String) :
    ∃ f, render env M .dataDirectory f h seen fs ≠ .error .timeout := by
  have hpay : ∃ q ∈ M.parts, h.payload = q.payload := by
    obtain ⟨_, hpayl, _, _, _⟩ := describe_fields hd
    exact ⟨p, hp, hpayl⟩
  exact dirTermR env M hint hwf (newPaths env M hint fs)
    (fun h2 s2 fs2 hdsc hm => dirTermRD env M hint hwf (newPaths env M hint fs) h2 s2 fs2 hdsc hm)
    h seen fs hpay (le_refl _)

/-- A successful `render` of an HTML descriptor decomposes through
`renderTags`. -/
theorem render_html_ok (env : Env) (M : Mapped) (st : Strat) (f : Nat) (h : PartHelper)
    (seen fs : List String) {out : PyVal} {ct2 : String} {fs2 : List String} {doc : Doc}
    (hct : h.content_type = "text/html") (hp : env.parseHtml h.payload = some doc)
    (hb : (doc.filter (fun t => t.name == "base")).take 1 = [])
    (hok : render env M st (f + 1) h seen fs = .ok (out, ct2, fs2)) :
    ∃ doc2, renderTags env M st f doc
        (env.urljoin (pyStrip (h.part.location.getD "")) (h.part.contentBase.getD ""))
        seen fs = .ok (doc2, fs2) ∧
      out = .vbytes (env.encodeDoc doc2) ∧ ct2 = "text/html;charset=utf8" := by
  cases hrt : renderTags env M st f doc
      (env.urljoin (pyStrip (h.part.location.getD "")) (h.part.contentBase.getD ""))
      seen fs with
  | error e => simp [render, hct, hp, hb, hrt] at hok
  | ok pr =>
    obtain ⟨doc2, fs3⟩ := pr
    simp [render, hct, hp, hb, hrt] at hok
    obtain ⟨ho1, ho2, ho3⟩ := hok
    subst ho3
    exact ⟨doc2, rfl, ho1.symm, ho2.symm⟩

/-- A successful `renderTags` preserves list length and processes each tag
positionwise through `renderAttrs` (with the same `seen`, at some fuel and
some intermediate file state). -/
theorem renderTags_get (env : Env) (M : Mapped) (st : Strat) :
    ∀ (doc : Doc) (f : Nat) (base : String) (seen fs : List String) (doc2 : Doc)
      (fs2 : List String),
      renderTags env M st f doc base seen fs = .ok (doc2, fs2) →
      doc2.length = doc.length ∧
      ∀ (i : Nat) (tag : Tag), doc[i]? = some tag →
        ∃ tag2 f2 fsA fsB, doc2[i]? = some tag2 ∧
          renderAttrs env M st f2 (refsGet tag.name) tag base seen fsA = .ok (tag2, fsB) := by
  intro doc
  induction doc with
  | nil =>
    intro f base seen fs doc2 fs2 hok
    cases f with
    | zero => simp [renderTags] at hok
    | succ f =>
      simp [renderTags] at hok
      exact ⟨by rw [← hok.1], fun i tag hi => by simp at hi⟩
  | cons tag rest ih =>
    intro f base seen fs doc2 fs2 hok
    cases f with
    | zero => simp [renderTags] at hok
    | succ f =>
      cases hra : renderAttrs env M st f (refsGet tag.name) tag base seen fs with
      | error e => simp [renderTags, hra] at hok
      | ok pr =>
        obtain ⟨tagH, fsH⟩ := pr
        cases hrt : renderTags env M st f rest base seen fsH with
        | error e => simp [renderTags, hra, hrt] at hok
        | ok pr2 =>
          obtain ⟨rest2, fs3⟩ := pr2
          simp [renderTags, hra, hrt] at hok
          obtain ⟨hdoc2, _⟩ := hok
          obtain ⟨hlen, hget⟩ := ih f base seen fsH rest2 fs3 hrt
          constructor
          · rw [← hdoc2]; simp [hlen]
          · intro i tg hi
            cases i with
            | zero =>
              simp at hi
              subst hi
              exact ⟨tagH, f, fs, fsH, by rw [← hdoc2]; simp, hra⟩
            | succ i =>
              simp at hi
              obtain ⟨tag2, f2, fsA, fsB, hg, hrab⟩ := hget i tg hi
              exact ⟨tag2, f2, fsA, fsB, by rw [← hdoc2]; simpa using hg, hrab⟩

/-- Lemma: `renderAttrs` never touches attributes outside its worklist. -/
theorem renderAttrs_preserve (env : Env) (M : Mapped) (st : Strat) :
    ∀ (attrs : List String) (f : Nat) (tag : Tag) (base : String) (seen fs : List String)
      (a : String) (tag2 : Tag) (fs2 : List String), a ∉ attrs →
      renderAttrs env M st f attrs tag base seen fs = .ok (tag2, fs2) →
      tagGet tag2 a = tagGet tag a := by
  intro attrs
  induction attrs with
  | nil =>
    intro f tag base seen fs a tag2 fs2 _ hok
    cases f with
    | zero => simp [renderAttrs] at hok
    | succ f => simp [renderAttrs] at hok; rw [← hok.1]
  | cons attr attrRest ih =>
    intro f tag base seen fs a tag2 fs2 hna hok
    have hnar : a ∉ attrRest := fun hx => hna (List.mem_cons_of_mem _ hx)
    have hne : attr ≠ a := fun hx => hna (hx ▸ List.mem_cons_self _ _)
    cases f with
    | zero => simp [renderAttrs] at hok
    | succ f =>
      by_cases hhref : pyStrip (tagGet tag attr) = ""
      · rw [show renderAttrs env M st (f + 1) (attr :: attrRest) tag base seen fs =
            renderAttrs env M st f attrRest tag base seen fs by simp [renderAttrs, hhref]] at hok
        exact ih f tag base seen fs a tag2 fs2 hnar hok
      · cases hm : (if urlScheme (pyStrip (tagGet tag attr)) = "cid"
                    then dictGet M.by_id (urlPath (pyStrip (tagGet tag attr)))
                    else dictGet M.by_loc (env.urljoin base (pyStrip (tagGet tag attr)))) with
        | none =>
          rw [show renderAttrs env M st (f + 1) (attr :: attrRest) tag base seen fs =
              renderAttrs env M st f attrRest tag base seen fs by
            simp [renderAttrs, hhref, hm]] at hok
          exact ih f tag base seen fs a tag2 fs2 hnar hok
        | some mp =>
          cases hd : describe env mp (pyLower (pyStrip (tagGet tag "type"))) with
          | error e => simp [renderAttrs, hhref, hm, hd] at hok
          | ok h2 =>
            cases hrd : render_data env M st f h2 seen fs with
            | error e => simp [renderAttrs, hhref, hm, hd, hrd] at hok
            | ok pr =>
              obtain ⟨res, fsM⟩ := pr
              cases res with
              | none =>
                rw [show renderAttrs env M st (f + 1) (attr :: attrRest) tag base seen fs =
                    renderAttrs env M st f attrRest tag base seen fsM by
                  simp [renderAttrs, hhref, hm, hd, hrd]] at hok
                exact ih f tag base seen fsM a tag2 fs2 hnar hok
              | some newHref =>
                rw [show renderAttrs env M st (f + 1) (attr :: attrRest) tag base seen fs =
                    renderAttrs env M st f attrRest (tagSet tag attr newHref) base seen fsM by
                  simp [renderAttrs, hhref, hm, hd, hrd]] at hok
                have := ih f (tagSet tag attr newHref) base seen fsM a tag2 fs2 hnar hok
                rw [this, tagGet_tagSet_ne tag attr newHref a hne]

/-- Inline strategy, the cycle case: if some attribute of the worklist holds
a `cid:` reference resolving to a part whose digest is already in `seen`,
then a successful pass leaves that attribute unchanged (the `render_data`
`None` is never written back). -/
theorem renderAttrs_cycle (env : Env) (M : Mapped) :
    ∀ (attrs : List String) (f : Nat) (tag : Tag) (base : String) (seen fs : List String)
      (a : String) (mref : MimePart) (h2 : PartHelper) (tag2 : Tag) (fs2 : List String),
      attrs.Nodup → a ∈ attrs → "type" ∉ attrs →
      pyStrip (tagGet tag a) ≠ "" →
      urlScheme (pyStrip (tagGet tag a)) = "cid" →
      dictGet M.by_id (urlPath (pyStrip (tagGet tag a))) = some mref →
      describe env mref (pyLower (pyStrip (tagGet tag "type"))) = .ok h2 →
      h2.digest ∈ seen →
      renderAttrs env M .inlineData f attrs tag base seen fs = .ok (tag2, fs2) →
      tagGet tag2 a = tagGet tag a := by
  intro attrs
  induction attrs with
  | nil => intro f tag base seen fs a mref h2 tag2 fs2 _ hmem; simp at hmem
  | cons attr attrRest ih =>
    intro f tag base seen fs a mref h2 tag2 fs2 hnd hmem htype hhref hcid hlook hdesc hseen hok
    have htype2 : "type" ∉ attrRest := fun hx => htype (List.mem_cons_of_mem _ hx)
    have hattrType : attr ≠ "type" := fun hx => htype (hx ▸ List.mem_cons_self _ _)
    cases f with
    | zero => simp [renderAttrs] at hok
    | succ f =>
      by_cases heq : attr = a
      · subst heq
        -- the cycle attribute itself: render_data returns None, tag unchanged
        have hnar : attr ∉ attrRest := (List.nodup_cons.mp hnd).1
        have hm : (if urlScheme (pyStrip (tagGet tag attr)) = "cid"
                   then dictGet M.by_id (urlPath (pyStrip (tagGet tag attr)))
                   else dictGet M.by_loc (env.urljoin base (pyStrip (tagGet tag attr)))) =
            some mref := by simp [hcid, hlook]
        cases f with
        | zero => simp [renderAttrs, hhref, hm, hdesc, render_data] at hok
        | succ f =>
          have hrd : render_data env M .inlineData (f + 1) h2 seen fs = .ok (none, fs) := by
            simp [render_data, hseen]
          rw [show renderAttrs env M .inlineData (f + 1 + 1) (attr :: attrRest) tag base seen fs =
              renderAttrs env M .inlineData (f + 1) attrRest tag base seen fs by
            simp [renderAttrs, hhref, hm, hdesc, hrd]] at hok
          exact renderAttrs_preserve env M .inlineData attrRest (f + 1) tag base seen fs attr
            tag2 fs2 hnar hok
      · -- a different attribute first: transport the hypotheses
        have hmem2 : a ∈ attrRest := by
          rcases List.mem_cons.mp hmem with h | h
          · exact absurd h.symm heq
          · exact h
        have hnd2 := (List.nodup_cons.mp hnd).2
        by_cases hhref2 : pyStrip (tagGet tag attr) = ""
        · rw [show renderAttrs env M .inlineData (f + 1) (attr :: attrRest) tag base seen fs =
              renderAttrs env M .inlineData f attrRest tag base seen fs by
            simp [renderAttrs, hhref2]] at hok
          exact ih f tag base seen fs a mref h2 tag2 fs2 hnd2 hmem2 htype2 hhref hcid hlook
            hdesc hseen hok
        · cases hm : (if urlScheme (pyStrip (tagGet tag attr)) = "cid"
                      then dictGet M.by_id (urlPath (pyStrip (tagGet tag attr)))
                      else dictGet M.by_loc (env.urljoin base (pyStrip (tagGet tag attr)))) with
          | none =>
            rw [show renderAttrs env M .inlineData (f + 1) (attr :: attrRest) tag base seen fs =
                renderAttrs env M .inlineData f attrRest tag base seen fs by
              simp [renderAttrs, hhref2, hm]] at hok
            exact ih f tag base seen fs a mref h2 tag2 fs2 hnd2 hmem2 htype2 hhref hcid hlook
              hdesc hseen hok
          | some mp =>
            cases hd : describe env mp (pyLower (pyStrip (tagGet tag "type"))) with
            | error e => simp [renderAttrs, hhref2, hm, hd] at hok
            | ok hx =>
              cases hrd : render_data env M .inlineData f hx seen fs with
              | error e => simp [renderAttrs, hhref2, hm, hd, hrd] at hok
              | ok pr =>
                obtain ⟨res, fsM⟩ := pr
                cases res with
                | none =>
                  rw [show renderAttrs env M .inlineData (f + 1) (attr :: attrRest) tag base
                      seen fs = renderAttrs env M .inlineData f attrRest tag base seen fsM by
                    simp [renderAttrs, hhref2, hm, hd, hrd]] at hok
                  exact ih f tag base seen fsM a mref h2 tag2 fs2 hnd2 hmem2 htype2 hhref hcid
                    hlook hdesc hseen hok
                | some newHref =>
                  rw [show renderAttrs env M .inlineData (f + 1) (attr :: attrRest) tag base
                      seen fs = renderAttrs env M .inlineData f attrRest
                        (tagSet tag attr newHref) base seen fsM by
                    simp [renderAttrs, hhref2, hm, hd, hrd]] at hok
                  have hga : tagGet (tagSet tag attr newHref) a = tagGet tag a :=
                    tagGet_tagSet_ne tag attr newHref a heq
                  have hgt : tagGet (tagSet tag attr newHref) "type" = tagGet tag "type" :=
                    tagGet_tagSet_ne tag attr newHref "type" hattrType
                  have := ih f (tagSet tag attr newHref) base seen fsM a mref h2 tag2 fs2 hnd2
                    hmem2 htype2 (by rw [hga]; exact hhref) (by rw [hga]; exact hcid)
                    (by rw [hga]; exact hlook) (by rw [hgt]; exact hdesc) hseen hok
                  rw [this, hga]

/-! ## Root-selection order lemmas -/

/-- Lemma: `findStart` returns the first candidate with a `by_id` hit. -/
theorem findStart_first (byId : List (String × MimePart)) :
    ∀ (starts : List String) (i : Nat) (s : String) (p : MimePart),
      starts[i]? = some s → dictGet byId s = some p →
      (∀ j, j < i → ∀ s2, starts[j]? = some s2 → dictGet byId s2 = none) →
      findStart starts byId = some p := by
  intro starts
  induction starts with
  | nil => intro i s p hi _ _; simp at hi
  | cons s0 rest ih =>
    intro i s p hi hp hbefore
    cases i with
    | zero =>
      simp at hi
      subst hi
      simp [findStart, hp]
    | succ i =>
      have h0 : dictGet byId s0 = none := hbefore 0 (Nat.succ_pos i) s0 (by simp)
      simp at hi
      simp only [findStart, h0]
      exact ih i s p hi hp (fun j hj s2 hs2 => hbefore (j + 1) (by omega) s2 (by simpa using hs2))

/-- Lemma: `findStart` misses when no candidate has a `by_id` entry. -/
theorem findStart_none (byId : List (String × MimePart)) :
    ∀ starts : List String, (∀ s ∈ starts, dictGet byId s = none) →
      findStart starts byId = none := by
  intro starts
  induction starts with
  | nil => intro _; rfl
  | cons s0 rest ih =>
    intro hall
    simp only [findStart, hall s0 (List.mem_cons_self _ _)]
    exact ih (fun s hs => hall s (List.mem_cons_of_mem _ hs))

/-- Lemma: `find?` returns the first non-multipart part of the walk. -/
theorem find_first_nonmultipart :
    ∀ (walk : List MimePart) (i : Nat) (p : MimePart),
      walk[i]? = some p → p.multipart = false →
      (∀ j, j < i → ∀ q, walk[j]? = some q → q.multipart = true) →
      walk.find? (fun q => !q.multipart) = some p := by
  intro walk
  induction walk with
  | nil => intro i p hi _ _; simp at hi
  | cons q rest ih =>
    intro i p hi hnm hbefore
    cases i with
    | zero =>
      simp at hi
      subst hi
      simp [List.find?, hnm]
    | succ i =>
      have hq : q.multipart = true := hbefore 0 (Nat.succ_pos i) q (by simp)
      simp at hi
      simp only [List.find?, hq, Bool.not_true]
      exact ih i p hi hnm (fun j hj q2 hq2 => hbefore (j + 1) (by omega) q2 (by simpa using hq2))

/-! ## Claim theorems -/

/-- C3: the `Mapped.render` docstring admits raw message parts, but the raw
branch evaluates `PartHelper(helper)` — one argument where
`PartHelper.__init__` requires two — so every raw part raises `TypeError`
instead of being described with no recommended type. -/
theorem c3_raw_part_raises (env : Env) (M : Mapped) (st : Strat) (fuel : Nat)
    (p : MimePart) (seen fs : List String) :
    renderTop env M st fuel (.inl p) seen fs = .error .typeError := rfl

/-- C4 (amended): the descriptor digest is the URL-safe base64 encoding —
*including* the `=` padding kept by `urlsafe_b64encode` — of the SHA-256
hash of the decoded payload bytes, and it is a pure function of the payload:
descriptors with identical payloads have identical digests regardless of
content type or recommendation. -/
theorem c4_digest_padded_pure (env : Env) (p : MimePart) (rec : String) (h : PartHelper)
    (hd : describe env p rec = .ok h) :
    (∃ b, p.payload = .vbytes b ∧ h.digest = b64urlsafe (sha256 b)) ∧
    (∀ (env2 : Env) (p2 : MimePart) (rec2 : String) (h2 : PartHelper),
      describe env2 p2 rec2 = .ok h2 → p2.payload = p.payload → h2.digest = h.digest) := by
  constructor
  · obtain ⟨b, hb⟩ := describe_ok_bytes hd
    obtain ⟨_, _, _, _, hdg⟩ := describe_fields hd
    exact ⟨b, hb, by rw [hdg]; unfold digestOf; rw [hb]⟩
  · intro env2 p2 rec2 h2 hd2 hpay
    obtain ⟨_, _, _, _, hdg⟩ := describe_fields hd
    obtain ⟨_, _, _, _, hdg2⟩ := describe_fields hd2
    rw [hdg, hdg2]
    unfold digestOf
    rw [hpay]

/-- C4 witness: the digest of the empty payload is the padded URL-safe
encoding of its SHA-256 hash. -/
theorem c4_digest_witness :
    ∃ b, partE.payload = .vbytes b ∧ helperE.digest = b64urlsafe (sha256 b) :=
  (c4_digest_padded_pure envT partE "" helperE (by decide)).1

/-- C4 counterexample: the claim says the digest is padless URL-safe base64;
on the concrete empty-payload part the digest the code computes carries a
`=` padding character and differs from the padless encoding. -/
theorem c4_digest_counterexample :
    describe envT partE "" = .ok helperE ∧
    helperE.digest ≠ b64urlsafeNoPadSpec (sha256 []) ∧
    '=' ∈ helperE.digest.data := by decide

/-- C5: `compress_data` never grows a byte buffer, and is the exact identity
on buffer and MIME type when the base type (before `;` parameters) is not a
key of the `minify` registry. -/
theorem c5_compress_never_grows (env : Env) (b : Bytes) (m : String) :
    (∀ (d : PyVal) (m2 : String), compress_data env (.vbytes b) m = .ok (d, m2) →
      ∃ n, pyLen d = .ok n ∧ n ≤ b.length) ∧
    (baseMimeType m ∉ minifyKeys → compress_data env (.vbytes b) m = .ok (.vbytes b, m)) := by
  constructor
  · intro d m2 hok
    unfold compress_data at hok
    by_cases hm : m = ""
    · simp [hm] at hok
      rw [← hok.1]
      exact ⟨b.length, rfl, le_refl _⟩
    · simp only [hm, if_false] at hok
      cases hc : getCompressor env (baseMimeType m) with
      | none =>
        rw [hc] at hok
        simp at hok
        rw [← hok.1]
        exact ⟨b.length, rfl, le_refl _⟩
      | some comp =>
        rw [hc] at hok
        cases hv : (match comp (.vbytes b) with
            | .inl d2 => (d2, m)
            | .inr dm => dm).1 with
        | vnone => simp [hv, pyLen] at hok
        | vbytes bb =>
          by_cases hlt : bb.length < b.length
          · simp [hv, pyLen, hlt] at hok
            have hd1 : (match comp (.vbytes b) with
                | .inl d2 => (d2, m)
                | .inr dm => dm).1 = d := by rw [hok]
            exact ⟨bb.length, by rw [← hd1, hv]; rfl, le_of_lt hlt⟩
          · simp [hv, pyLen, hlt] at hok
            rw [← hok.1]
            exact ⟨b.length, rfl, le_refl _⟩
        | vstr ss =>
          by_cases hlt : ss.length < b.length
          · simp [hv, pyLen, hlt] at hok
            have hd1 : (match comp (.vbytes b) with
                | .inl d2 => (d2, m)
                | .inr dm => dm).1 = d := by rw [hok]
            exact ⟨ss.length, by rw [← hd1, hv]; rfl, le_of_lt hlt⟩
          · simp [hv, pyLen, hlt] at hok
            rw [← hok.1]
            exact ⟨b.length, rfl, le_refl _⟩
  · intro hnot
    have hc : getCompressor env (baseMimeType m) = none := by
      unfold getCompressor
      have h1 : ¬(baseMimeType m = "text/javascript" ∨ baseMimeType m = "application/javascript" ∨
          baseMimeType m = "application/x-javascript") := by
        rintro (hx | hx | hx) <;> rw [hx] at hnot <;> simp [minifyKeys] at hnot
      have h2 : ¬(baseMimeType m = "text/css" ∨ baseMimeType m = "application/css") := by
        rintro (hx | hx) <;> rw [hx] at hnot <;> simp [minifyKeys] at hnot
      have h3 : ¬(baseMimeType m = "image/jpeg" ∨ baseMimeType m = "image/png" ∨
          baseMimeType m = "image/gif") := by
        rintro (hx | hx | hx) <;> rw [hx] at hnot <;> simp [minifyKeys] at hnot
      simp [h1, h2, h3]
    unfold compress_data
    by_cases hm : m = ""
    · simp [hm]
    · simp [hm, hc]

/-- C5 witness: an unregistered type passes through unchanged. -/
theorem c5_compress_witness :
    compress_data envT (.vbytes [1, 2]) "text/xyz" = .ok (.vbytes [1, 2], "text/xyz") :=
  (c5_compress_never_grows envT [1, 2] "text/xyz").2 (by decide)

/-- C6: rendering a descriptor whose content type is not `text/html` returns
the payload unchanged with the identical type for raw binary payloads, and
the UTF-8 encoding with `;charset=utf8` appended for textual payloads. -/
theorem c6_non_html_roundtrip (env : Env) (M : Mapped) (st : Strat) (f : Nat)
    (h : PartHelper) (seen fs : List String) (hct : h.content_type ≠ "text/html") :
    (∀ b, h.payload = .vbytes b →
      render env M st (f + 1) h seen fs = .ok (.vbytes b, h.content_type, fs)) ∧
    (∀ s, h.payload = .vstr s →
      render env M st (f + 1) h seen fs =
        .ok (.vbytes (utf8 s), h.content_type ++ ";charset=utf8", fs)) := by
  constructor
  · intro b hb; simp [render, hct, hb]
  · intro s hs; simp [render, hct, hs]

/-- C6 witness: a concrete binary part round-trips byte-identically. -/
theorem c6_non_html_witness :
    render envT mapT .inlineData 1 helperB [] [] = .ok (.vbytes [7], "text/plain", []) :=
  (c6_non_html_roundtrip envT mapT .inlineData 0 helperB [] [] (by decide)).1 [7] rfl

/-- C8 (amended): when the declared type is suspect and sniffing is
unavailable or leaves it suspect, a non-empty recommended type is adopted;
but with no recommendation the content type stays the (suspect) declared or
sniffed value itself — it is the empty string only when that value is
empty. -/
theorem c8_suspect_resolution (env : Env) (p : MimePart) (rec : String) (h : PartHelper)
    (hd : describe env p rec = .ok h)
    (hsusp : suspect_mime_type (sniffedMime env p) = true) :
    (rec ≠ "" → h.content_type = rec) ∧ (rec = "" → h.content_type = sniffedMime env p) := by
  obtain ⟨_, _, hct, _, _⟩ := describe_fields hd
  constructor
  · intro hrec
    rw [hct]
    simp [resolvedMime, hsusp, hrec]
  · intro hrec
    rw [hct]
    simp [resolvedMime, hrec]

/-- C8 witness: `text/plain` declared, no sniffer, `image/png` recommended —
the recommendation wins. -/
theorem c8_suspect_witness : helperPng.content_type = "image/png" :=
  (c8_suspect_resolution envT partE "image/png" helperPng (by decide) (by decide)).1 (by decide)

/-- C8 counterexample: with no recommendation, a still-suspect `text/plain`
stays `text/plain`; the claim's required empty-string fallback does not
happen. -/
theorem c8_suspect_counterexample :
    describe envT partE "" = .ok helperE ∧ helperE.content_type = "text/plain" ∧
    suspect_mime_type helperE.content_type = true ∧ helperE.content_type ≠ "" := by decide

/-- C9 (amended): `describe` succeeds exactly on parts whose decoded payload
is a byte buffer; for a multipart container (payload `None`) — or a `str`
payload — the digest computation (or sniffing) raises `TypeError`. -/
theorem c9_describe_total_iff (env : Env) (p : MimePart) (rec : String) :
    (∃ h, describe env p rec = .ok h) ↔ (∃ b, p.payload = .vbytes b) := by
  constructor
  · rintro ⟨h, hh⟩
    exact describe_ok_bytes hh
  · rintro ⟨b, hb⟩
    unfold describe
    rw [hb]
    exact ⟨_, rfl⟩

/-- C9 witness: a byte-payload part is described without error. -/
theorem c9_describe_witness : ∃ h, describe envT partE "" = .ok h :=
  (c9_describe_total_iff envT partE "").mpr ⟨[], rfl⟩

/-- C9 counterexample: describing a multipart container part (decoded payload
`None`) raises `TypeError` — `hashlib.sha256(None)` — instead of degrading
gracefully. -/
theorem c9_describe_counterexample :
    partMulti.multipart = true ∧ partMulti.payload = .vnone ∧
    describe envT partMulti "text/html" = .error .typeError := by decide

/-! ## Base64 output character lemmas -/

theorem b64Char_cases (alpha : List Char) (k : Nat) :
    b64Char alpha k ∈ alpha ∨ b64Char alpha k = 'A' := by
  unfold b64Char
  cases h : alpha[k]? with
  | none => right; simp [List.getD_eq_getElem?_getD, h]
  | some c =>
    left
    rw [List.getD_eq_getElem?_getD, h]
    simpa using List.getElem?_mem h

theorem b64Char_tri (alpha : List Char) (k : Nat) :
    b64Char alpha k ∈ alpha ∨ b64Char alpha k = '=' ∨ b64Char alpha k = 'A' := by
  rcases b64Char_cases alpha k with h | h
  · exact Or.inl h
  · exact Or.inr (Or.inr h)

/-- Every character emitted by the base64 encoder is an alphabet character,
`=`, or the out-of-range default `A`. -/
theorem b64Chars_mem (alpha : List Char) :
    ∀ (n : Nat) (bs : Bytes), bs.length ≤ n →
      ∀ c ∈ b64Chars alpha bs, c ∈ alpha ∨ c = '=' ∨ c = 'A' := by
  intro n
  induction n with
  | zero =>
    intro bs hlen c hc
    have hnil : bs = [] := List.eq_nil_of_length_eq_zero (by omega)
    subst hnil
    simp [b64Chars] at hc
  | succ n ihn =>
    intro bs hlen c hc
    match bs with
    | [] => simp [b64Chars] at hc
    | [a] =>
      simp [b64Chars] at hc
      rcases hc with rfl | rfl | rfl
      · exact b64Char_tri alpha _
      · exact b64Char_tri alpha _
      · exact Or.inr (Or.inl rfl)
    | [a, b] =>
      simp [b64Chars] at hc
      rcases hc with rfl | rfl | rfl | rfl
      · exact b64Char_tri alpha _
      · exact b64Char_tri alpha _
      · exact b64Char_tri alpha _
      · exact Or.inr (Or.inl rfl)
    | a :: b :: c2 :: rest =>
      simp only [b64Chars, List.mem_cons] at hc
      rcases hc with rfl | rfl | rfl | rfl | hmem
      · exact b64Char_tri alpha _
      · exact b64Char_tri alpha _
      · exact b64Char_tri alpha _
      · exact b64Char_tri alpha _
      · exact ihn rest (by simp at hlen; omega) c hmem

/-- The newline-stripped `encodebytes` output indeed contains no newline. -/
theorem encodebytes_no_newline (bs : Bytes) :
    ∀ c ∈ (b64_encodebytes_nonl bs).data, c ≠ '\n' := by
  intro c hc
  have hmem := b64Chars_mem b64StdAlphabet bs.length bs (le_refl _) c
    (by simpa [b64_encodebytes_nonl] using hc)
  rcases hmem with h | h | h
  · have hall : ∀ x ∈ b64StdAlphabet, x ≠ '\n' := by decide
    exact hall c h
  · subst h; decide
  · subst h; decide

/-- C10 (amended): inline `render_data` yields `None` exactly on the
digest-in-`seen` cycle check; any non-`None` result is a
`data:<mime>;base64,<payload>` URI whose base64 payload contains no newline
(the `encodebytes` line breaks are stripped), and the whole URI is
newline-free whenever the mime portion is — the mime portion itself is
embedded verbatim. -/
theorem c10_inline_render_data_shape (env : Env) (M : Mapped) (h : PartHelper)
    (seen fs : List String) (f : Nat) :
    (h.digest ∈ seen → render_data env M .inlineData (f + 1) h seen fs = .ok (none, fs)) ∧
    (∀ res fs2, render_data env M .inlineData (f + 1) h seen fs = .ok (res, fs2) →
      (res = none ↔ h.digest ∈ seen)) ∧
    (∀ u fs2, render_data env M .inlineData (f + 1) h seen fs = .ok (some u, fs2) →
      ∃ mime payload, u = "data:" ++ mime ++ ";base64," ++ payload ∧
        (∀ c ∈ payload.data, c ≠ '\n') ∧
        ((∀ c ∈ mime.data, c ≠ '\n') → ∀ c ∈ u.data, c ≠ '\n')) := by
  refine ⟨fun hmem => by simp [render_data, hmem], ?_, ?_⟩
  · intro res fs2 hok
    by_cases hmem : h.digest ∈ seen
    · simp [render_data, hmem] at hok
      simp [← hok.1, hmem]
    · constructor
      · intro hres
        subst hres
        cases hrr : render env M .inlineData f h (h.digest :: seen) fs with
        | error e => simp [render_data, hmem, hrr] at hok
        | ok tr =>
          obtain ⟨binary, ct2, fs3⟩ := tr
          cases hc : compress_data env binary ct2 with
          | error e => simp [render_data, hmem, hrr, hc] at hok
          | ok pr2 =>
            obtain ⟨b2, ct3⟩ := pr2
            cases b2 with
            | vbytes bb => simp [render_data, hmem, hrr, hc] at hok
            | vnone => simp [render_data, hmem, hrr, hc] at hok
            | vstr s => simp [render_data, hmem, hrr, hc] at hok
      · intro hmem2
        exact absurd hmem2 hmem
  · intro u fs2 hok
    by_cases hmem : h.digest ∈ seen
    · simp [render_data, hmem] at hok
    · cases hrr : render env M .inlineData f h (h.digest :: seen) fs with
      | error e => simp [render_data, hmem, hrr] at hok
      | ok tr =>
        obtain ⟨binary, ct2, fs3⟩ := tr
        cases hc : compress_data env binary ct2 with
        | error e => simp [render_data, hmem, hrr, hc] at hok
        | ok pr2 =>
          obtain ⟨b2, ct3⟩ := pr2
          cases b2 with
          | vnone => simp [render_data, hmem, hrr, hc] at hok
          | vstr s => simp [render_data, hmem, hrr, hc] at hok
          | vbytes bb =>
            simp [render_data, hmem, hrr, hc] at hok
            refine ⟨ct3, b64_encodebytes_nonl bb, hok.1.symm, encodebytes_no_newline bb, ?_⟩
            intro hmime c hcu
            rw [← hok.1] at hcu
            have hsplit : ("data:" ++ ct3 ++ ";base64," ++ b64_encodebytes_nonl bb).data =
                "data:".data ++ ct3.data ++ ";base64,".data ++
                  (b64_encodebytes_nonl bb).data := by
              simp [String.data_append]
            rw [hsplit] at hcu
            simp only [List.mem_append] at hcu
            have hlit1 : ∀ x ∈ "data:".data, x ≠ '\n' := by decide
            have hlit2 : ∀ x ∈ ";base64,".data, x ≠ '\n' := by decide
            rcases hcu with ((hx | hx) | hx) | hx
            · exact hlit1 c hx
            · exact hmime c hx
            · exact hlit2 c hx
            · exact encodebytes_no_newline bb c hx

/-- C10 counterexample: a `type` attribute can carry an inner newline; the
recommendation becomes the resolved mime verbatim, and the resulting
`data:` URI does contain a newline character. -/
theorem c10_newline_counterexample :
    describe envT partE "image/\npng" = .ok helperNL ∧
    render_data envT mapT .inlineData 5 helperNL [] [] =
      .ok (some "data:image/\npng;base64,", []) ∧
    '\n' ∈ "data:image/\npng;base64,".data := by decide

/-- C10 witness: on a descriptor whose digest is in `seen`, the inline
strategy yields `None`. -/
theorem c10_witness :
    render_data envT mapT .inlineData 3 helperH [digestH] [] = .ok (none, []) :=
  (c10_inline_render_data_shape envT mapT helperH [digestH] [] 2).1 (by decide)

/-- C7: root selection — a `starts` candidate with a `by_id` entry wins (the
first hit in iteration order), even when non-multipart parts occur earlier in
tree order; with no hit the first non-multipart part of the walk is chosen;
with neither, `convert_to_html` reports no root and yields no output. -/
theorem c7_root_selection (env : Env) (walk : List MimePart) (M : Mapped)
    (hM : M = buildMapped env walk) :
    (∀ (i : Nat) (s : String) (p : MimePart), M.starts[i]? = some s →
      dictGet M.by_id s = some p →
      (∀ j, j < i → ∀ s2, M.starts[j]? = some s2 → dictGet M.by_id s2 = none) →
      selectRoot M walk = some p) ∧
    ((∀ s ∈ M.starts, dictGet M.by_id s = none) →
      ∀ (i : Nat) (p : MimePart), walk[i]? = some p → p.multipart = false →
      (∀ j, j < i → ∀ q, walk[j]? = some q → q.multipart = true) →
      selectRoot M walk = some p) ∧
    ((∀ s ∈ M.starts, dictGet M.by_id s = none) → (∀ p ∈ walk, p.multipart = true) →
      ∀ fuel, convert_to_html env fuel walk = none) := by
  refine ⟨?_, ?_, ?_⟩
  · intro i s p hi hp hbefore
    simp [selectRoot, findStart_first M.by_id M.starts i s p hi hp hbefore]
  · intro hnone i p hi hnm hbefore
    simp [selectRoot, findStart_none M.by_id M.starts hnone,
      find_first_nonmultipart walk i p hi hnm hbefore]
  · intro hnone hall fuel
    have hsel : selectRoot (buildMapped env walk) walk = none := by
      rw [← hM]
      simp only [selectRoot, findStart_none M.by_id M.starts hnone]
      apply List.find?_eq_none.mpr
      intro p hp
      simp [hall p hp]
    simp [convert_to_html, hsel]

/-- C7 witness: a message whose second part declares `start="me"` and holds
Content-ID `<me>` — that part is selected although a non-multipart part
occurs earlier in walk order. -/
theorem c7_witness : selectRoot (buildMapped envT [partFirst, partS]) [partFirst, partS] =
    some partS :=
  (c7_root_selection envT [partFirst, partS] (buildMapped envT [partFirst, partS]) rfl).1
    0 "me" partS (by decide) (by decide) (fun j hj => absurd hj (Nat.not_lt_zero j))

/-- C1: under the Inline strategy, when an HTML descriptor's document holds a
reference (here a `cid:` link) that resolves through `by_id` to a part whose
digest is already in the `seen` set of the current resolution path:
rendering terminates (some fuel completes without exhaustion);
`render_data` returns `None` for that reference; a completed render keeps
the attribute's original value at that tag; and every inline embed step
recurses with `seen` extended by the current descriptor's digest, so the
recursion never revisits a digest of the ancestor chain. -/
theorem c1_inline_cycle_reference (env : Env) (M : Mapped) (hwf : WFMapped M)
    (h : PartHelper) (seen fs : List String) (doc : Doc) (i : Nat) (tag : Tag) (a : String)
    (mref : MimePart) (h2 : PartHelper)
    (hct : h.content_type = "text/html")
    (hparse : env.parseHtml h.payload = some doc)
    (hnb : (doc.filter (fun t => t.name == "base")).take 1 = [])
    (hi : doc[i]? = some tag)
    (ha : a ∈ refsGet tag.name)
    (hne : pyStrip (tagGet tag a) ≠ "")
    (hcid : urlScheme (pyStrip (tagGet tag a)) = "cid")
    (hlook : dictGet M.by_id (urlPath (pyStrip (tagGet tag a))) = some mref)
    (hdesc : describe env mref (pyLower (pyStrip (tagGet tag "type"))) = .ok h2)
    (hseen : h2.digest ∈ seen) :
    (∃ f, render env M .inlineData f h seen fs ≠ .error .timeout) ∧
    (∀ f, render_data env M .inlineData (f + 1) h2 seen fs = .ok (none, fs)) ∧
    (∀ (f : Nat) (out : PyVal) (ct2 : String) (fs2 : List String),
      render env M .inlineData (f + 1) h seen fs = .ok (out, ct2, fs2) →
      ∃ doc2 tag2, out = .vbytes (env.encodeDoc doc2) ∧ doc2[i]? = some tag2 ∧
        tagGet tag2 a = tagGet tag a) ∧
    (∀ (h3 : PartHelper) (s3 fs3 : List String) (f : Nat), h3.digest ∉ s3 →
      render_data env M .inlineData (f + 1) h3 s3 fs3 =
        match render env M .inlineData f h3 (h3.digest :: s3) fs3 with
        | .error e => .error e
        | .ok (binary, content_type, fsr) =>
          match compress_data env binary content_type with
          | .error e => .error e
          | .ok (binary2, content_type2) =>
            match binary2 with
            | .vbytes b =>
              .ok (some ("data:" ++ content_type2 ++ ";base64," ++ b64_encodebytes_nonl b),
                fsr)
            | _ => .error .typeError) := by
  refine ⟨inlineTermination env M hwf h seen fs, ?_, ?_, ?_⟩
  · intro f
    simp [render_data, hseen]
  · intro f out ct2 fs2 hok
    obtain ⟨doc2, hrt, hout, _⟩ := render_html_ok env M .inlineData f h seen fs hct hparse hnb hok
    obtain ⟨hlen, hget⟩ := renderTags_get env M .inlineData doc f
      (env.urljoin (pyStrip (h.part.location.getD "")) (h.part.contentBase.getD ""))
      seen fs doc2 fs2 hrt
    obtain ⟨tag2, f2, fsA, fsB, hg2, hrab⟩ := hget i tag hi
    refine ⟨doc2, tag2, hout, hg2, ?_⟩
    exact renderAttrs_cycle env M (refsGet tag.name) f2 tag
      (env.urljoin (pyStrip (h.part.location.getD "")) (h.part.contentBase.getD ""))
      seen fsA a mref h2 tag2 fsB (refs_nodup tag.name) ha (type_not_in_refs tag.name)
      hne hcid hlook hdesc hseen hrab
  · intro h3 s3 fs3 f hnotin
    simp [render_data, hnotin]

/-- C1 witness: the self-referencing HTML fixture with its own digest already
in `seen`. -/
theorem c1_witness :
    ∃ f, render envT mapT .inlineData f helperH [digestH] [] ≠ .error .timeout :=
  (c1_inline_cycle_reference envT mapT (by decide) helperH [digestH] []
    [⟨"img", [("src", "cid:me")]⟩] 0 ⟨"img", [("src", "cid:me")]⟩ "src" partH helperH
    rfl (by decide) (by decide) (by decide) (by decide) (by decide) (by decide) (by decide)
    (by decide) (by decide)).1

/-- C2 (amended): `DataDirectory.render_data` passes `seen` to the recursive
render unchanged, but a cyclic reference graph still terminates: the
placeholder blob file is touched before the recursive render, so when the
recursion returns to an already-started digest+extension path the existence
check succeeds and the path is returned without recursing; rendering any
descriptor built from a message part completes within finite fuel. -/
theorem c2_directory_placeholder_terminates (env : Env) (M : Mapped) :
    (∀ (h : PartHelper) (seen fs : List String) (f : Nat), pathD h ∈ fs →
      render_data env M .dataDirectory (f + 1) h seen fs = .ok (some (pathD h), fs)) ∧
    (∀ (h : PartHelper) (seen fs : List String) (f : Nat), pathD h ∉ fs →
      render_data env M .dataDirectory (f + 1) h seen fs =
        match render env M .dataDirectory f h seen (pathD h :: fs) with
        | .error e => .error e
        | .ok (binary, content_type, fs2) =>
          match compress_data env binary content_type with
          | .error e => .error e
          | .ok (binary2, _) =>
            match binary2 with
            | .vbytes _ => .ok (some (pathD h), fs2)
            | _ => .error .typeError) ∧
    (WFMapped M → ∀ (p : MimePart) (hint : String) (h : PartHelper) (seen fs : List String),
      p ∈ M.parts → describe env p hint = .ok h →
      ∃ f, render env M .dataDirectory f h seen fs ≠ .error .timeout) := by
  refine ⟨?_, ?_, ?_⟩
  · intro h seen fs f hmem
    rw [show pathD h ∈ fs ↔ ("blob=" ++ h.digest ++ h.extension) ∈ fs from Iff.rfl] at hmem
    simp [render_data, hmem, pathD]
  · intro h seen fs f hmem
    rw [show pathD h ∉ fs ↔ ("blob=" ++ h.digest ++ h.extension) ∉ fs from Iff.rfl] at hmem
    simp [render_data, hmem, pathD]
  · intro hwf p hint h seen fs hp hd
    exact dirTermination env M hwf p hint hp h hd seen fs

/-- C2 counterexample: a concrete self-referencing HTML part (its document
links `cid:me`, its own Content-ID).  Under the Directory strategy the run
completes at finite fuel — it does not recurse unboundedly — because the
second visit finds the placeholder blob file. -/
theorem c2_counterexample :
    envT.parseHtml partH.payload = some [⟨"img", [("src", "cid:me")]⟩] ∧
    dictGet mapT.by_id "me" = some partH ∧
    describe envT partH "text/html" = .ok helperH ∧
    render envT mapT .dataDirectory 12 helperH [] [] =
      .ok (.vbytes [42], "text/html;charset=utf8", ["blob=" ++ digestH ++ ".html"]) := by
  decide

/-- C2 witness: with the blob path already present, directory `render_data`
returns it immediately. -/
theorem c2_witness :
    render_data envT mapT .dataDirectory 5 helperH [] [pathD helperH] =
      .ok (some (pathD helperH), [pathD helperH]) :=
  (c2_directory_placeholder_terminates envT mapT).1 helperH [] [pathD helperH] 4 (by decide)
